import Mathlib

/-!
Verification development for the R2PD resource resolution and caching engine.

The definitions below are a shallow embedding of the core logic of the
repository:

* the capacity-aware generation allocator nearest_power_nodes
  (R2PD/queue.py, lines 15-107), modelled as a step relation on an explicit
  allocation state over exact rationals;
* the local cache metadata store (R2PD/datastore.py, InternalDataStore:
  cache_site, check_cache, refresh_cache_meta, cache_size) and the download
  orchestration layer (ExternalDataStore.cache_resource,
  Peregrine.download_resource_data and its twin queue.download_resource_data),
  modelled as pure state-passing functions over an explicit cache state;
* DataStore.decode_config_entry (R2PD/datastore.py, lines 62-81).

Machine floats of the source are modelled as rationals; the planar Euclidean
metric of scipy cKDTree is modelled by comparing squared distances, which
induces the same nearest-neighbour order.  Distance ties are resolved to the
lowest index, matching the deterministic first-minimum behaviour of the
reference stack (pandas idxmin returns the first minimising row; groupby
iterates keys in ascending order).
-/

/-! ## Generic list access helpers -/

/-- Element access with a default value, the counterpart of reading a row of a
DataFrame by position. -/
def nth {α : Type} [Inhabited α] (l : List α) (i : Nat) : α :=
  l.getD i default

theorem nth_out {α : Type} [Inhabited α] (l : List α) (i : Nat)
    (h : l.length ≤ i) : nth l i = default := by
  induction l generalizing i with
  | nil => rfl
  | cons a t ih =>
    cases i with
    | zero => simp at h
    | succ j =>
      simp only [nth, List.getD, List.get?] at *
      exact ih j (by simpa using h)

theorem nth_cons_succ {α : Type} [Inhabited α] (a : α) (t : List α) (i : Nat) :
    nth (a :: t) (i + 1) = nth t i := rfl

theorem nth_cons_zero {α : Type} [Inhabited α] (a : α) (t : List α) :
    nth (a :: t) 0 = a := rfl

theorem nth_mem {α : Type} [Inhabited α] (l : List α) (i : Nat)
    (h : i < l.length) : nth l i ∈ l := by
  induction l generalizing i with
  | nil => simp at h
  | cons a t ih =>
    cases i with
    | zero => exact List.mem_cons_self _ _
    | succ j =>
      exact List.mem_cons_of_mem _ (ih j (by simpa using h))

theorem nth_of_mem {α : Type} [Inhabited α] {l : List α} {a : α}
    (h : a ∈ l) : ∃ i, i < l.length ∧ nth l i = a := by
  induction l with
  | nil => simp at h
  | cons b t ih =>
    rcases List.mem_cons.mp h with h | h
    · exact ⟨0, by simp, h.symm⟩
    · rcases ih h with ⟨i, hi, hv⟩
      exact ⟨i + 1, by simpa using Nat.succ_lt_succ hi, hv⟩

theorem nth_set_self {α : Type} [Inhabited α] (l : List α) (i : Nat) (a : α)
    (h : i < l.length) : nth (l.set i a) i = a := by
  induction l generalizing i with
  | nil => simp at h
  | cons b t ih =>
    cases i with
    | zero => rfl
    | succ j => exact ih j (by simpa using h)

theorem nth_set_ne {α : Type} [Inhabited α] (l : List α) (i j : Nat) (a : α)
    (h : i ≠ j) : nth (l.set i a) j = nth l j := by
  induction l generalizing i j with
  | nil => rfl
  | cons b t ih =>
    cases i with
    | zero =>
      cases j with
      | zero => exact absurd rfl h
      | succ k => rfl
    | succ i' =>
      cases j with
      | zero => rfl
      | succ k => exact ih i' k (by omega)

theorem nth_map {α β : Type} [Inhabited α] [Inhabited β] (f : α → β)
    (l : List α) (i : Nat) (h : i < l.length) :
    nth (l.map f) i = f (nth l i) := by
  induction l generalizing i with
  | nil => simp at h
  | cons a t ih =>
    cases i with
    | zero => rfl
    | succ j => exact ih j (by simpa using h)

theorem map_set_sum {α : Type} [Inhabited α] (f : α → ℚ) (l : List α)
    (i : Nat) (a : α) (h : i < l.length) :
    ((l.set i a).map f).sum = (l.map f).sum - f (nth l i) + f a := by
  induction l generalizing i with
  | nil => simp at h
  | cons b t ih =>
    cases i with
    | zero => simp [nth_cons_zero]; ring
    | succ j =>
      have := ih j (by simpa using h)
      simp only [List.set, List.map, List.sum_cons, nth_cons_succ, this]
      ring

theorem filter_length_mono (l : List Nat) (p q : Nat → Bool)
    (h : ∀ i ∈ l, q i = true → p i = true) :
    (l.filter q).length ≤ (l.filter p).length := by
  induction l with
  | nil => simp
  | cons a t ih =>
    have ht : ∀ i ∈ t, q i = true → p i = true :=
      fun i hi => h i (List.mem_cons_of_mem _ hi)
    by_cases hq : q a = true
    · have hp := h a (List.mem_cons_self _ _) hq
      simp [List.filter, hq, hp]
      exact ih ht
    · simp only [List.filter, Bool.not_eq_true] at hq ⊢
      rw [hq]
      by_cases hp : p a = true
      · rw [hp]
        exact Nat.le_succ_of_le (ih ht)
      · simp only [Bool.not_eq_true] at hp
        rw [hp]
        exact ih ht

theorem filter_length_strict (l : List Nat) (p q : Nat → Bool)
    (h : ∀ i ∈ l, q i = true → p i = true)
    (i0 : Nat) (h0 : i0 ∈ l) (hp0 : p i0 = true) (hq0 : q i0 = false) :
    (l.filter q).length < (l.filter p).length := by
  induction l with
  | nil => simp at h0
  | cons a t ih =>
    have ht : ∀ i ∈ t, q i = true → p i = true :=
      fun i hi => h i (List.mem_cons_of_mem _ hi)
    rcases List.mem_cons.mp h0 with rfl | h0t
    · simp only [List.filter, hq0, hp0]
      exact Nat.lt_succ_of_le (filter_length_mono t p q ht)
    · by_cases hq : q a = true
      · have hp := h a (List.mem_cons_self _ _) hq
        simp only [List.filter, hq, hp, List.length_cons]
        exact Nat.succ_lt_succ (ih ht h0t)
      · simp only [Bool.not_eq_true] at hq
        simp only [List.filter, hq]
        by_cases hp : p a = true
        · rw [hp]
          exact Nat.lt_succ_of_lt (ih ht h0t)
        · simp only [Bool.not_eq_true] at hp
          rw [hp]
          exact ih ht h0t

/-! ## Data model of the generation allocator (R2PD/queue.py, nearest_power_nodes)

A resource site row of resource_meta: index label, latitude, longitude,
rated capacity, and the mutable remaining capacity column r_cap. -/

structure RSite where
  sid : Nat
  lat : ℚ
  lon : ℚ
  cap : ℚ
  rCap : ℚ
deriving DecidableEq, Repr, Inhabited

/-- A requested generation node row of the nodes frame: index label, latitude,
longitude, required capacity (column capacity, filled from capacity (MW)), the
mutable remaining capacity r_cap, and the accumulated allocation.  The source
keeps two parallel lists site_id and site_fracs that are appended to in
lockstep; they are modelled as a single list of pairs. -/
structure RNode where
  nid : Nat
  lat : ℚ
  lon : ℚ
  req : ℚ
  rCap : ℚ
  alloc : List (Nat × ℚ)
deriving DecidableEq, Repr, Inhabited

/-- The mutable state of the allocation loop: the nodes frame and the r_nodes
frame. -/
structure AState where
  nodes : List RNode
  sites : List RSite
deriving DecidableEq, Repr, Inhabited

/-- Squared planar Euclidean distance between a node and a site.  cKDTree uses
the Euclidean distance on (latitude, longitude); comparing squares gives the
same nearest-neighbour order. -/
def sqDist (nd : RNode) (s : RSite) : ℚ :=
  (nd.lat - s.lat) ^ 2 + (nd.lon - s.lon) ^ 2

/-- Indices of resource sites with remaining capacity, in frame order:
r_left = r_nodes[r_nodes[r_cap] > 0]. -/
def liveSiteIdx (st : AState) : List Nat :=
  (List.range st.sites.length).filter (fun i => decide (0 < (nth st.sites i).rCap))

/-- Indices of requested nodes with remaining capacity, in frame order:
nodes_left = nodes[nodes[r_cap] > 0]. -/
def liveNodeIdx (st : AState) : List Nat :=
  (List.range st.nodes.length).filter (fun i => decide (0 < (nth st.nodes i).rCap))

/-- Index of the first minimiser of f over a list of indices (ties resolved to
the earliest element, the deterministic reading of a cKDTree k=1 query and of
pandas idxmin). -/
def argminBy (f : Nat → ℚ) : List Nat → Option Nat
  | [] => none
  | a :: l => some (l.foldl (fun b j => if f j < f b then j else b) a)

/-- The live site chosen by node j: tree.query(node_lat_lon, k=1), the nearest
site with remaining capacity. -/
def chooseSite (st : AState) (j : Nat) : Option Nat :=
  argminBy (fun i => sqDist (nth st.nodes j) (nth st.sites i)) (liveSiteIdx st)

/-- Live nodes whose chosen nearest live site is i: the rows of the pos group
of node_pairs.groupby(pos), in frame order. -/
def choosers (st : AState) (i : Nat) : List Nat :=
  (liveNodeIdx st).filter (fun j => decide (chooseSite st j = some i))

/-- The winning (site, node) pairs of one loop pass:
node_pairs.groupby(pos)[dist].idxmin() — per distinct chosen site, the
closest node among the nodes that chose it, keys in ascending site order. -/
def passPairs (st : AState) : List (Nat × Nat) :=
  (liveSiteIdx st).filterMap (fun i =>
    (argminBy (fun j => sqDist (nth st.nodes j) (nth st.sites i)) (choosers st i)).map
      (fun j => (i, j)))

/-- Apply one winning (site, node) pair, mirroring the body of the
for i, n in node_pairs.iteritems() loop: if the node needs more than the
site has left, take all of the site, else take what the node needs; the
recorded fraction is the amount taken divided by the site's rated capacity,
appended to the node's allocation lists. -/
def applyPair (st : AState) (p : Nat × Nat) : AState :=
  let s := nth st.sites p.1
  let nd := nth st.nodes p.2
  if s.rCap < nd.rCap then
    { nodes := st.nodes.set p.2
        { nd with rCap := nd.rCap - s.rCap,
                  alloc := nd.alloc ++ [(s.sid, s.rCap / s.cap)] },
      sites := st.sites.set p.1 { s with rCap := 0 } }
  else
    { nodes := st.nodes.set p.2
        { nd with rCap := 0,
                  alloc := nd.alloc ++ [(s.sid, nd.rCap / s.cap)] },
      sites := st.sites.set p.1 { s with rCap := s.rCap - nd.rCap } }

/-- One pass of the while-True body (excluding the break test): apply every
winning pair in ascending order of chosen site. -/
def allocPass (st : AState) : AState :=
  (passPairs st).foldl applyPair st

/-- Result of running the allocation loop.  crash models the uncaught
exception the source raises when an iteration starts with no live site but a
live node remains: tree.query against the empty cKDTree yields the
out-of-range index n, and r_index[i] on the empty index raises.  fuelOut
means the given iteration budget was exhausted before the loop exited. -/
inductive AllocResult where
  | ok (st : AState)
  | crash (st : AState)
  | fuelOut (st : AState)
deriving DecidableEq, Repr

/-- The while True loop of nearest_power_nodes: run one pass, then break when
no node has remaining capacity.  The fuel argument bounds the number of
executed loop iterations. -/
def allocLoop : Nat → AState → AllocResult
  | 0, st => .fuelOut st
  | Nat.succ k, st =>
    if liveSiteIdx st = [] ∧ liveNodeIdx st ≠ [] then .crash st
    else
      let st' := allocPass st
      if liveNodeIdx st' = [] then .ok st'
      else allocLoop k st'

/-- Build an initial node row: r_cap starts at the requested capacity, the
site_id and site_fracs cells start empty (NaN placeholders). -/
def mkNode (x : Nat × ℚ × ℚ × ℚ) : RNode :=
  { nid := x.1, lat := x.2.1, lon := x.2.2.1, req := x.2.2.2,
    rCap := x.2.2.2, alloc := [] }

/-- Build an initial site row: r_cap starts at the rated capacity. -/
def mkSite (x : Nat × ℚ × ℚ × ℚ) : RSite :=
  { sid := x.1, lat := x.2.1, lon := x.2.2.1, cap := x.2.2.2, rCap := x.2.2.2 }

/-- Initial allocation state from the requested node list
(id, latitude, longitude, capacity) and the resource meta list
(id, latitude, longitude, capacity). -/
def initAState (nodeData siteData : List (Nat × ℚ × ℚ × ℚ)) : AState :=
  { nodes := nodeData.map mkNode, sites := siteData.map mkSite }

/-- nearest_power_nodes: build the two frames and run the allocation loop for
at most fuel iterations. -/
def nearest_power_nodes (nodeData siteData : List (Nat × ℚ × ℚ × ℚ))
    (fuel : Nat) : AllocResult :=
  allocLoop fuel (initAState nodeData siteData)

/-- Rated capacity of the site with the given id (the first matching row,
as pandas .loc on a unique index). -/
def capOf (sites : List RSite) (sid : Nat) : ℚ :=
  match sites.find? (fun s => s.sid == sid) with
  | some s => s.cap
  | none => 0

/-- Total capacity allocated to a node: the sum over its allocation list of
fraction times the referenced site's rated capacity. -/
def allocatedSum (sites : List RSite) (nd : RNode) : ℚ :=
  (nd.alloc.map (fun e => e.2 * capOf sites e.1)).sum

/-- Sum of the remaining capacities of all nodes. -/
def totN (st : AState) : ℚ := (st.nodes.map RNode.rCap).sum

/-- Sum of the remaining capacities of all sites. -/
def totS (st : AState) : ℚ := (st.sites.map RSite.rCap).sum

/-- True when the loop ran out of its iteration budget. -/
def isFuelOut : AllocResult → Bool
  | .fuelOut _ => true
  | _ => false

/-! ## Properties of argminBy and the live index lists -/

theorem foldl_min_mem (f : Nat → ℚ) (l : List Nat) (b : Nat) :
    l.foldl (fun b j => if f j < f b then j else b) b ∈ b :: l := by
  induction l generalizing b with
  | nil => simp
  | cons a t ih =>
    simp only [List.foldl]
    by_cases h : f a < f b
    · rw [if_pos h]
      exact List.mem_cons_of_mem _ (ih a)
    · rw [if_neg h]
      rcases List.mem_cons.mp (ih b) with h' | h'
      · rw [h']; simp
      · exact List.mem_cons_of_mem _ (List.mem_cons_of_mem _ h')

theorem foldl_min_le (f : Nat → ℚ) (l : List Nat) (b : Nat) :
    f (l.foldl (fun b j => if f j < f b then j else b) b) ≤ f b ∧
    ∀ j ∈ l, f (l.foldl (fun b j => if f j < f b then j else b) b) ≤ f j := by
  induction l generalizing b with
  | nil => exact ⟨le_refl _, by simp⟩
  | cons a t ih =>
    simp only [List.foldl]
    by_cases h : f a < f b
    · rw [if_pos h]
      refine ⟨le_trans (ih a).1 (le_of_lt h), ?_⟩
      intro j hj
      rcases List.mem_cons.mp hj with heq | hj
      · rw [heq]; exact (ih a).1
      · exact (ih a).2 j hj
    · rw [if_neg h]
      refine ⟨(ih b).1, ?_⟩
      intro j hj
      rcases List.mem_cons.mp hj with heq | hj
      · rw [heq]; exact le_trans (ih b).1 (not_lt.mp h)
      · exact (ih b).2 j hj

theorem argminBy_mem {f : Nat → ℚ} {l : List Nat} {m : Nat}
    (h : argminBy f l = some m) : m ∈ l := by
  cases l with
  | nil => simp [argminBy] at h
  | cons a t =>
    simp only [argminBy, Option.some.injEq] at h
    subst h
    exact foldl_min_mem f t a

theorem argminBy_min {f : Nat → ℚ} {l : List Nat} {m : Nat}
    (h : argminBy f l = some m) : ∀ j ∈ l, f m ≤ f j := by
  cases l with
  | nil => simp [argminBy] at h
  | cons a t =>
    simp only [argminBy, Option.some.injEq] at h
    subst h
    intro j hj
    rcases List.mem_cons.mp hj with heq | hj
    · rw [heq]; exact (foldl_min_le f t a).1
    · exact (foldl_min_le f t a).2 j hj

theorem argminBy_isSome {f : Nat → ℚ} {l : List Nat} (h : l ≠ []) :
    ∃ m, argminBy f l = some m := by
  cases l with
  | nil => exact absurd rfl h
  | cons a t => exact ⟨_, rfl⟩

theorem mem_liveSiteIdx {st : AState} {i : Nat} :
    i ∈ liveSiteIdx st ↔ i < st.sites.length ∧ 0 < (nth st.sites i).rCap := by
  simp [liveSiteIdx, List.mem_filter, List.mem_range]

theorem mem_liveNodeIdx {st : AState} {j : Nat} :
    j ∈ liveNodeIdx st ↔ j < st.nodes.length ∧ 0 < (nth st.nodes j).rCap := by
  simp [liveNodeIdx, List.mem_filter, List.mem_range]

theorem liveSiteIdx_eq_nil {st : AState} :
    liveSiteIdx st = [] ↔ ∀ i, i < st.sites.length → (nth st.sites i).rCap ≤ 0 := by
  constructor
  · intro h i hi
    by_contra hlt
    have : i ∈ liveSiteIdx st := mem_liveSiteIdx.mpr ⟨hi, not_le.mp hlt⟩
    rw [h] at this
    exact absurd this (List.not_mem_nil i)
  · intro h
    rcases List.eq_nil_or_concat (liveSiteIdx st) with hnil | ⟨_, i, hi⟩
    · exact hnil
    · exfalso
      have : i ∈ liveSiteIdx st := by rw [hi]; simp
      rcases mem_liveSiteIdx.mp this with ⟨h1, h2⟩
      exact absurd h2 (not_lt.mpr (h i h1))

theorem liveNodeIdx_eq_nil {st : AState} :
    liveNodeIdx st = [] ↔ ∀ j, j < st.nodes.length → (nth st.nodes j).rCap ≤ 0 := by
  constructor
  · intro h j hj
    by_contra hlt
    have : j ∈ liveNodeIdx st := mem_liveNodeIdx.mpr ⟨hj, not_le.mp hlt⟩
    rw [h] at this
    exact absurd this (List.not_mem_nil j)
  · intro h
    rcases List.eq_nil_or_concat (liveNodeIdx st) with hnil | ⟨_, j, hj⟩
    · exact hnil
    · exfalso
      have : j ∈ liveNodeIdx st := by rw [hj]; simp
      rcases mem_liveNodeIdx.mp this with ⟨h1, h2⟩
      exact absurd h2 (not_lt.mpr (h j h1))

theorem mem_passPairs {st : AState} {p : Nat × Nat} (h : p ∈ passPairs st) :
    p.1 ∈ liveSiteIdx st ∧ p.2 ∈ choosers st p.1 ∧
      ∀ j ∈ choosers st p.1,
        sqDist (nth st.nodes p.2) (nth st.sites p.1) ≤
          sqDist (nth st.nodes j) (nth st.sites p.1) := by
  rcases List.mem_filterMap.mp h with ⟨i, hi, hf⟩
  rcases Option.map_eq_some'.mp hf with ⟨j, hj, hpair⟩
  cases p with
  | mk a b =>
    cases hpair
    exact ⟨hi, argminBy_mem hj, argminBy_min hj⟩

theorem passPairs_bounds {st : AState} {p : Nat × Nat} (h : p ∈ passPairs st) :
    p.1 < st.sites.length ∧ p.2 < st.nodes.length := by
  rcases mem_passPairs h with ⟨h1, h2, _⟩
  have h2' := (List.mem_filter.mp h2).1
  exact ⟨(mem_liveSiteIdx.mp h1).1, (mem_liveNodeIdx.mp h2').1⟩

theorem passPairs_live {st : AState} {p : Nat × Nat} (h : p ∈ passPairs st) :
    0 < (nth st.sites p.1).rCap ∧ 0 < (nth st.nodes p.2).rCap := by
  rcases mem_passPairs h with ⟨h1, h2, _⟩
  have h2' := (List.mem_filter.mp h2).1
  exact ⟨(mem_liveSiteIdx.mp h1).2, (mem_liveNodeIdx.mp h2').2⟩

theorem passPairs_ne_nil {st : AState} (hn : liveNodeIdx st ≠ [])
    (hs : liveSiteIdx st ≠ []) : passPairs st ≠ [] := by
  rcases List.exists_mem_of_ne_nil _ hn with ⟨j, hj⟩
  rcases argminBy_isSome (f := fun i => sqDist (nth st.nodes j) (nth st.sites i)) hs
    with ⟨i, hi⟩
  have hichoose : chooseSite st j = some i := hi
  have himem : i ∈ liveSiteIdx st := argminBy_mem hi
  have hjch : j ∈ choosers st i := by
    simp only [choosers, List.mem_filter, decide_eq_true_eq]
    exact ⟨hj, hichoose⟩
  have hne : choosers st i ≠ [] := List.ne_nil_of_mem hjch
  rcases argminBy_isSome
      (f := fun j => sqDist (nth st.nodes j) (nth st.sites i)) hne with ⟨w, hw⟩
  intro hcontra
  have := List.filterMap_eq_nil_iff.mp hcontra i himem
  rw [hw] at this
  simp at this

theorem passPairs_empty_of_no_nodes {st : AState} (hn : liveNodeIdx st = []) :
    passPairs st = [] := by
  apply List.filterMap_eq_nil_iff.mpr
  intro i _
  have : choosers st i = [] := by simp [choosers, hn]
  rw [this]
  rfl

/-! ## Effects of a single winning pair -/

/-- The amount moved by a winning pair: min of the node's and the site's
remaining capacity. -/
def pAmount (st : AState) (p : Nat × Nat) : ℚ :=
  min (nth st.nodes p.2).rCap (nth st.sites p.1).rCap

theorem set_out_of_range {α : Type} (l : List α) (i : Nat) (a : α)
    (h : l.length ≤ i) : l.set i a = l := by
  induction l generalizing i with
  | nil => rfl
  | cons b t ih =>
    cases i with
    | zero => simp at h
    | succ j => simp only [List.set]; rw [ih j (by simpa using h)]

/-- Both branches of the pair-application body reduce to the min form: the
node and the site each lose pAmount, and the appended fraction is
pAmount divided by the site's rated capacity. -/
theorem applyPair_eq (st : AState) (p : Nat × Nat) :
    applyPair st p =
      { nodes := st.nodes.set p.2
          { nth st.nodes p.2 with
              rCap := (nth st.nodes p.2).rCap - pAmount st p,
              alloc := (nth st.nodes p.2).alloc ++
                [((nth st.sites p.1).sid, pAmount st p / (nth st.sites p.1).cap)] },
        sites := st.sites.set p.1
          { nth st.sites p.1 with rCap := (nth st.sites p.1).rCap - pAmount st p } } := by
  unfold applyPair pAmount
  by_cases h : (nth st.sites p.1).rCap < (nth st.nodes p.2).rCap
  · rw [if_pos h, min_eq_right (le_of_lt h)]
    simp
  · rw [if_neg h, min_eq_left (not_lt.mp h)]
    simp

theorem applyPair_nodes_length (st : AState) (p : Nat × Nat) :
    (applyPair st p).nodes.length = st.nodes.length := by
  rw [applyPair_eq]; simp

theorem applyPair_sites_length (st : AState) (p : Nat × Nat) :
    (applyPair st p).sites.length = st.sites.length := by
  rw [applyPair_eq]; simp

theorem applyPair_nth_nodes_ne (st : AState) (p : Nat × Nat) (j : Nat)
    (h : p.2 ≠ j) : nth (applyPair st p).nodes j = nth st.nodes j := by
  rw [applyPair_eq]
  exact nth_set_ne _ _ _ _ h

theorem applyPair_nth_sites_ne (st : AState) (p : Nat × Nat) (i : Nat)
    (h : p.1 ≠ i) : nth (applyPair st p).sites i = nth st.sites i := by
  rw [applyPair_eq]
  exact nth_set_ne _ _ _ _ h

theorem applyPair_nth_nodes_self (st : AState) (p : Nat × Nat)
    (h : p.2 < st.nodes.length) :
    nth (applyPair st p).nodes p.2 =
      { nth st.nodes p.2 with
          rCap := (nth st.nodes p.2).rCap - pAmount st p,
          alloc := (nth st.nodes p.2).alloc ++
            [((nth st.sites p.1).sid, pAmount st p / (nth st.sites p.1).cap)] } := by
  rw [applyPair_eq]
  exact nth_set_self _ _ _ h

theorem applyPair_nth_sites_self (st : AState) (p : Nat × Nat)
    (h : p.1 < st.sites.length) :
    nth (applyPair st p).sites p.1 =
      { nth st.sites p.1 with rCap := (nth st.sites p.1).rCap - pAmount st p } := by
  rw [applyPair_eq]
  exact nth_set_self _ _ _ h

/-! ## Loop invariants -/

/-- All nodes have nonnegative remaining capacity. -/
def NodesNonneg (st : AState) : Prop := ∀ j, 0 ≤ (nth st.nodes j).rCap

/-- All sites have nonnegative remaining capacity. -/
def SitesNonneg (st : AState) : Prop := ∀ i, 0 ≤ (nth st.sites i).rCap

/-- No site holds more remaining than its rated capacity. -/
def SitesRle (st : AState) : Prop :=
  ∀ i, (nth st.sites i).rCap ≤ (nth st.sites i).cap

/-- Site ids and rated capacities never change from the initial frame. -/
def SidCapEq (sites0 : List RSite) (st : AState) : Prop :=
  st.sites.length = sites0.length ∧
  ∀ i, (nth st.sites i).sid = (nth sites0 i).sid ∧
    (nth st.sites i).cap = (nth sites0 i).cap

/-- Per-node conservation: remaining capacity plus the capacity already
allocated (fraction times rated capacity of the referenced site) equals the
requested capacity. -/
def ConsInv (sites0 : List RSite) (st : AState) : Prop :=
  ∀ j, (nth st.nodes j).rCap + allocatedSum sites0 (nth st.nodes j) =
    (nth st.nodes j).req

theorem pAmount_nonneg {st : AState} (hN : NodesNonneg st)
    (hS : SitesNonneg st) (p : Nat × Nat) : 0 ≤ pAmount st p :=
  le_min (hN p.2) (hS p.1)

theorem applyPair_nodesNonneg {st : AState} (p : Nat × Nat)
    (hN : NodesNonneg st) : NodesNonneg (applyPair st p) := by
  intro j
  by_cases hj : p.2 = j
  · subst hj
    by_cases hr : p.2 < st.nodes.length
    · rw [applyPair_nth_nodes_self st p hr]
      exact sub_nonneg.mpr (min_le_left _ _)
    · rw [applyPair_eq]
      simp only [nth]
      rw [set_out_of_range _ _ _ (not_lt.mp hr)]
      exact hN p.2
  · rw [applyPair_nth_nodes_ne st p j hj]
    exact hN j

theorem applyPair_sitesNonneg {st : AState} (p : Nat × Nat)
    (hS : SitesNonneg st) : SitesNonneg (applyPair st p) := by
  intro i
  by_cases hi : p.1 = i
  · subst hi
    by_cases hr : p.1 < st.sites.length
    · rw [applyPair_nth_sites_self st p hr]
      exact sub_nonneg.mpr (min_le_right _ _)
    · rw [applyPair_eq]
      simp only [nth]
      rw [set_out_of_range _ _ _ (not_lt.mp hr)]
      exact hS p.1
  · rw [applyPair_nth_sites_ne st p i hi]
    exact hS i

theorem applyPair_nodes_ptwise {st : AState} (p : Nat × Nat)
    (hN : NodesNonneg st) (hS : SitesNonneg st) :
    ∀ j, (nth (applyPair st p).nodes j).rCap ≤ (nth st.nodes j).rCap := by
  intro j
  by_cases hj : p.2 = j
  · subst hj
    by_cases hr : p.2 < st.nodes.length
    · rw [applyPair_nth_nodes_self st p hr]
      simp only
      linarith [pAmount_nonneg hN hS p]
    · rw [applyPair_eq]
      simp only [nth]
      rw [set_out_of_range _ _ _ (not_lt.mp hr)]
  · rw [applyPair_nth_nodes_ne st p j hj]

theorem applyPair_sites_ptwise {st : AState} (p : Nat × Nat)
    (hN : NodesNonneg st) (hS : SitesNonneg st) :
    ∀ i, (nth (applyPair st p).sites i).rCap ≤ (nth st.sites i).rCap := by
  intro i
  by_cases hi : p.1 = i
  · subst hi
    by_cases hr : p.1 < st.sites.length
    · rw [applyPair_nth_sites_self st p hr]
      simp only
      linarith [pAmount_nonneg hN hS p]
    · rw [applyPair_eq]
      simp only [nth]
      rw [set_out_of_range _ _ _ (not_lt.mp hr)]
  · rw [applyPair_nth_sites_ne st p i hi]

theorem applyPair_sitesRle {st : AState} (p : Nat × Nat)
    (hN : NodesNonneg st) (hS : SitesNonneg st) (hR : SitesRle st) :
    SitesRle (applyPair st p) := by
  intro i
  by_cases hi : p.1 = i
  · subst hi
    by_cases hr : p.1 < st.sites.length
    · rw [applyPair_nth_sites_self st p hr]
      simp only
      have := pAmount_nonneg hN hS p
      have := hR p.1
      linarith
    · rw [applyPair_eq]
      simp only [nth]
      rw [set_out_of_range _ _ _ (not_lt.mp hr)]
      exact hR p.1
  · rw [applyPair_nth_sites_ne st p i hi]
    exact hR i

theorem applyPair_sidCapEq {sites0 : List RSite} {st : AState} (p : Nat × Nat)
    (h : SidCapEq sites0 st) : SidCapEq sites0 (applyPair st p) := by
  refine ⟨by rw [applyPair_sites_length]; exact h.1, ?_⟩
  intro i
  by_cases hi : p.1 = i
  · subst hi
    by_cases hr : p.1 < st.sites.length
    · rw [applyPair_nth_sites_self st p hr]
      exact h.2 p.1
    · rw [applyPair_eq]
      simp only [nth]
      rw [set_out_of_range _ _ _ (not_lt.mp hr)]
      exact h.2 p.1
  · rw [applyPair_nth_sites_ne st p i hi]
    exact h.2 i

theorem capOf_nth {sites0 : List RSite}
    (hnd : (sites0.map RSite.sid).Nodup) :
    ∀ i, i < sites0.length → capOf sites0 (nth sites0 i).sid = (nth sites0 i).cap := by
  induction sites0 with
  | nil => intro i hi; simp at hi
  | cons a t ih =>
    intro i hi
    cases i with
    | zero =>
      simp only [nth_cons_zero, capOf]
      rw [List.find?_cons_of_pos _ (by simp)]
    | succ j =>
      have hj : j < t.length := by simpa using hi
      have hsid : (nth t j).sid ∈ t.map RSite.sid :=
        List.mem_map_of_mem _ (nth_mem t j hj)
      have hnd2 := hnd
      rw [List.map_cons, List.nodup_cons] at hnd2
      have hne : (a.sid == (nth t j).sid) = false := by
        apply beq_eq_false_iff_ne.mpr
        intro hcontra
        exact hnd2.1 (hcontra ▸ hsid)
      simp only [nth_cons_succ, capOf]
      rw [List.find?_cons_of_neg _ (by simp [hne])]
      exact ih hnd2.2 j hj

theorem allocatedSum_append (sites0 : List RSite) (nd nd2 : RNode) (sid : Nat)
    (frac : ℚ) (h : nd2.alloc = nd.alloc ++ [(sid, frac)]) :
    allocatedSum sites0 nd2 = allocatedSum sites0 nd + frac * capOf sites0 sid := by
  simp [allocatedSum, h]

theorem applyPair_consInv {sites0 : List RSite} {st : AState} (p : Nat × Nat)
    (hnd : (sites0.map RSite.sid).Nodup)
    (hN : NodesNonneg st) (hS : SitesNonneg st) (hR : SitesRle st)
    (hsc : SidCapEq sites0 st) (hb1 : p.1 < st.sites.length)
    (hc : ConsInv sites0 st) : ConsInv sites0 (applyPair st p) := by
  intro j
  by_cases hj : p.2 = j
  · subst hj
    by_cases hr : p.2 < st.nodes.length
    · have hself := applyPair_nth_nodes_self st p hr
      have hrc : (nth (applyPair st p).nodes p.2).rCap =
          (nth st.nodes p.2).rCap - pAmount st p := by rw [hself]
      have hal : (nth (applyPair st p).nodes p.2).alloc =
          (nth st.nodes p.2).alloc ++
            [((nth st.sites p.1).sid, pAmount st p / (nth st.sites p.1).cap)] := by
        rw [hself]
      have hreq : (nth (applyPair st p).nodes p.2).req =
          (nth st.nodes p.2).req := by rw [hself]
      have hcap : capOf sites0 (nth st.sites p.1).sid = (nth st.sites p.1).cap := by
        have h1 := (hsc.2 p.1).1
        have h2 := (hsc.2 p.1).2
        rw [h1, h2]
        exact capOf_nth hnd p.1 (hsc.1 ▸ hb1)
      have hsum := allocatedSum_append sites0 (nth st.nodes p.2)
        (nth (applyPair st p).nodes p.2) (nth st.sites p.1).sid
        (pAmount st p / (nth st.sites p.1).cap) hal
      rw [hrc, hreq, hsum, hcap]
      by_cases hz : (nth st.sites p.1).cap = 0
      · have hr0 : (nth st.sites p.1).rCap = 0 :=
          le_antisymm (hz ▸ hR p.1) (hS p.1)
        have hamt : pAmount st p = 0 := by
          simp [pAmount, hr0, min_eq_right (hN p.2)]
        rw [hamt, hz]
        have := hc p.2
        simp only [zero_div, zero_mul, sub_zero, add_zero]
        linarith [hc p.2]
      · have hdm : pAmount st p / (nth st.sites p.1).cap * (nth st.sites p.1).cap =
            pAmount st p := div_mul_cancel₀ _ hz
        rw [hdm]
        linarith [hc p.2]
    · rw [applyPair_eq]
      simp only [nth]
      rw [set_out_of_range _ _ _ (not_lt.mp hr)]
      exact hc p.2
  · rw [applyPair_nth_nodes_ne st p j hj]
    exact hc j

theorem applyPair_totN (st : AState) (p : Nat × Nat)
    (hb : p.2 < st.nodes.length) :
    totN (applyPair st p) = totN st - pAmount st p := by
  rw [applyPair_eq]
  simp only [totN]
  rw [map_set_sum _ _ _ _ hb]
  simp only
  ring

theorem applyPair_totS (st : AState) (p : Nat × Nat)
    (hb : p.1 < st.sites.length) :
    totS (applyPair st p) = totS st - pAmount st p := by
  rw [applyPair_eq]
  simp only [totS]
  rw [map_set_sum _ _ _ _ hb]
  simp only
  ring

/-! ## Effects of one whole pass -/

/-- Lightweight pass invariants: preserved by folding any in-range pair list.
The conclusions are exactly what the termination and conservation arguments
consume. -/
theorem foldPairs_light :
    ∀ (ps : List (Nat × Nat)) (st : AState),
      (∀ p ∈ ps, p.1 < st.sites.length ∧ p.2 < st.nodes.length) →
      NodesNonneg st → SitesNonneg st → SitesRle st →
      NodesNonneg (ps.foldl applyPair st) ∧
      SitesNonneg (ps.foldl applyPair st) ∧
      SitesRle (ps.foldl applyPair st) ∧
      (ps.foldl applyPair st).nodes.length = st.nodes.length ∧
      (ps.foldl applyPair st).sites.length = st.sites.length ∧
      totS (ps.foldl applyPair st) - totN (ps.foldl applyPair st) =
        totS st - totN st ∧
      (∀ j, (nth (ps.foldl applyPair st).nodes j).rCap ≤ (nth st.nodes j).rCap) ∧
      (∀ i, (nth (ps.foldl applyPair st).sites i).rCap ≤ (nth st.sites i).rCap) := by
  intro ps
  induction ps with
  | nil =>
    intro st _ hN hS hR
    exact ⟨hN, hS, hR, rfl, rfl, rfl, fun _ => le_refl _, fun _ => le_refl _⟩
  | cons p ps ih =>
    intro st hb hN hS hR
    have hbp := hb p (List.mem_cons_self _ _)
    have hN1 := applyPair_nodesNonneg p hN
    have hS1 := applyPair_sitesNonneg p hS
    have hR1 := applyPair_sitesRle p hN hS hR
    have hb1 : ∀ q ∈ ps, q.1 < (applyPair st p).sites.length ∧
        q.2 < (applyPair st p).nodes.length := by
      intro q hq
      rw [applyPair_sites_length, applyPair_nodes_length]
      exact hb q (List.mem_cons_of_mem _ hq)
    have IH := ih (applyPair st p) hb1 hN1 hS1 hR1
    simp only [List.foldl]
    refine ⟨IH.1, IH.2.1, IH.2.2.1, ?_, ?_, ?_, ?_, ?_⟩
    · rw [IH.2.2.2.1, applyPair_nodes_length]
    · rw [IH.2.2.2.2.1, applyPair_sites_length]
    · rw [IH.2.2.2.2.2.1, applyPair_totS st p hbp.1, applyPair_totN st p hbp.2]
      ring
    · intro j
      exact le_trans (IH.2.2.2.2.2.2.1 j) (applyPair_nodes_ptwise p hN hS j)
    · intro i
      exact le_trans (IH.2.2.2.2.2.2.2 i) (applyPair_sites_ptwise p hN hS i)

/-- Full pass invariant: adds conservation and the fixed site frame. -/
theorem foldPairs_full {sites0 : List RSite}
    (hnd : (sites0.map RSite.sid).Nodup) :
    ∀ (ps : List (Nat × Nat)) (st : AState),
      (∀ p ∈ ps, p.1 < st.sites.length ∧ p.2 < st.nodes.length) →
      NodesNonneg st → SitesNonneg st → SitesRle st →
      SidCapEq sites0 st → ConsInv sites0 st →
      SidCapEq sites0 (ps.foldl applyPair st) ∧
      ConsInv sites0 (ps.foldl applyPair st) := by
  intro ps
  induction ps with
  | nil =>
    intro st _ _ _ _ hsc hc
    exact ⟨hsc, hc⟩
  | cons p ps ih =>
    intro st hb hN hS hR hsc hc
    have hbp := hb p (List.mem_cons_self _ _)
    have hb1 : ∀ q ∈ ps, q.1 < (applyPair st p).sites.length ∧
        q.2 < (applyPair st p).nodes.length := by
      intro q hq
      rw [applyPair_sites_length, applyPair_nodes_length]
      exact hb q (List.mem_cons_of_mem _ hq)
    simp only [List.foldl]
    exact ih (applyPair st p) hb1
      (applyPair_nodesNonneg p hN) (applyPair_sitesNonneg p hS)
      (applyPair_sitesRle p hN hS hR) (applyPair_sidCapEq p hsc)
      (applyPair_consInv p hnd hN hS hR hsc hbp.1 hc)

/-! ## The pass makes progress -/

theorem allocPass_light (st : AState) (hN : NodesNonneg st)
    (hS : SitesNonneg st) (hR : SitesRle st) :
    NodesNonneg (allocPass st) ∧ SitesNonneg (allocPass st) ∧
    SitesRle (allocPass st) ∧
    (allocPass st).nodes.length = st.nodes.length ∧
    (allocPass st).sites.length = st.sites.length ∧
    totS (allocPass st) - totN (allocPass st) = totS st - totN st ∧
    (∀ j, (nth (allocPass st).nodes j).rCap ≤ (nth st.nodes j).rCap) ∧
    (∀ i, (nth (allocPass st).sites i).rCap ≤ (nth st.sites i).rCap) :=
  foldPairs_light (passPairs st) st (fun _ hp => passPairs_bounds hp) hN hS hR

theorem allocPass_full {sites0 : List RSite}
    (hnd : (sites0.map RSite.sid).Nodup) (st : AState)
    (hN : NodesNonneg st) (hS : SitesNonneg st) (hR : SitesRle st)
    (hsc : SidCapEq sites0 st) (hc : ConsInv sites0 st) :
    SidCapEq sites0 (allocPass st) ∧ ConsInv sites0 (allocPass st) :=
  foldPairs_full hnd (passPairs st) st (fun _ hp => passPairs_bounds hp)
    hN hS hR hsc hc

theorem allocPass_of_no_nodes {st : AState} (h : liveNodeIdx st = []) :
    allocPass st = st := by
  unfold allocPass
  rw [passPairs_empty_of_no_nodes h]
  rfl

/-- Each executed pass with live nodes and live sites drives at least one
live node or one live site to zero remaining capacity. -/
theorem allocPass_zeroes (st : AState) (hN : NodesNonneg st)
    (hS : SitesNonneg st) (hR : SitesRle st)
    (hn : liveNodeIdx st ≠ []) (hs : liveSiteIdx st ≠ []) :
    (∃ j, j < st.nodes.length ∧ 0 < (nth st.nodes j).rCap ∧
      (nth (allocPass st).nodes j).rCap ≤ 0) ∨
    (∃ i, i < st.sites.length ∧ 0 < (nth st.sites i).rCap ∧
      (nth (allocPass st).sites i).rCap ≤ 0) := by
  rcases List.exists_cons_of_ne_nil (passPairs_ne_nil hn hs) with ⟨p, rest, hps⟩
  have hpmem : p ∈ passPairs st := by rw [hps]; simp
  have hb := passPairs_bounds hpmem
  have hlive := passPairs_live hpmem
  have hfold : allocPass st = rest.foldl applyPair (applyPair st p) := by
    unfold allocPass
    rw [hps, List.foldl_cons]
  have hN1 := applyPair_nodesNonneg p hN
  have hS1 := applyPair_sitesNonneg p hS
  have hR1 := applyPair_sitesRle p hN hS hR
  have hbrest : ∀ q ∈ rest, q.1 < (applyPair st p).sites.length ∧
      q.2 < (applyPair st p).nodes.length := by
    intro q hq
    rw [applyPair_sites_length, applyPair_nodes_length]
    exact passPairs_bounds (by rw [hps]; exact List.mem_cons_of_mem _ hq)
  have hlt := foldPairs_light rest (applyPair st p) hbrest hN1 hS1 hR1
  by_cases hcase : (nth st.nodes p.2).rCap ≤ (nth st.sites p.1).rCap
  · left
    refine ⟨p.2, hb.2, hlive.2, ?_⟩
    have hz : (nth (applyPair st p).nodes p.2).rCap = 0 := by
      rw [applyPair_nth_nodes_self st p hb.2]
      simp only [pAmount]
      rw [min_eq_left hcase]
      ring
    rw [hfold]
    calc (nth (rest.foldl applyPair (applyPair st p)).nodes p.2).rCap
        ≤ (nth (applyPair st p).nodes p.2).rCap := hlt.2.2.2.2.2.2.1 p.2
      _ ≤ 0 := le_of_eq hz
  · right
    refine ⟨p.1, hb.1, hlive.1, ?_⟩
    have hz : (nth (applyPair st p).sites p.1).rCap = 0 := by
      rw [applyPair_nth_sites_self st p hb.1]
      simp only [pAmount]
      rw [min_eq_right (le_of_lt (not_le.mp hcase))]
      ring
    rw [hfold]
    calc (nth (rest.foldl applyPair (applyPair st p)).sites p.1).rCap
        ≤ (nth (applyPair st p).sites p.1).rCap := hlt.2.2.2.2.2.2.2 p.1
      _ ≤ 0 := le_of_eq hz

/-- The number of live nodes plus live sites. -/
def liveCount (st : AState) : Nat :=
  (liveNodeIdx st).length + (liveSiteIdx st).length

theorem liveNodeIdx_length_mono {st st' : AState}
    (hlen : st'.nodes.length = st.nodes.length)
    (hpt : ∀ j, (nth st'.nodes j).rCap ≤ (nth st.nodes j).rCap) :
    (liveNodeIdx st').length ≤ (liveNodeIdx st).length := by
  unfold liveNodeIdx
  rw [hlen]
  apply filter_length_mono
  intro i _ hq
  rw [decide_eq_true_eq] at hq ⊢
  exact lt_of_lt_of_le hq (hpt i)

theorem liveSiteIdx_length_mono {st st' : AState}
    (hlen : st'.sites.length = st.sites.length)
    (hpt : ∀ i, (nth st'.sites i).rCap ≤ (nth st.sites i).rCap) :
    (liveSiteIdx st').length ≤ (liveSiteIdx st).length := by
  unfold liveSiteIdx
  rw [hlen]
  apply filter_length_mono
  intro i _ hq
  rw [decide_eq_true_eq] at hq ⊢
  exact lt_of_lt_of_le hq (hpt i)

/-- Each executed pass with live nodes and live sites strictly decreases the
total number of live nodes and sites. -/
theorem allocPass_liveCount_lt (st : AState) (hN : NodesNonneg st)
    (hS : SitesNonneg st) (hR : SitesRle st)
    (hn : liveNodeIdx st ≠ []) (hs : liveSiteIdx st ≠ []) :
    liveCount (allocPass st) < liveCount st := by
  have hlt := allocPass_light st hN hS hR
  rcases allocPass_zeroes st hN hS hR hn hs with ⟨j, hj, hpos, hzero⟩ | ⟨i, hi, hpos, hzero⟩
  · have hstrict : (liveNodeIdx (allocPass st)).length < (liveNodeIdx st).length := by
      unfold liveNodeIdx
      rw [hlt.2.2.2.1]
      refine filter_length_strict _ _ _ ?_ j (List.mem_range.mpr hj) ?_ ?_
      · intro i _ hq
        rw [decide_eq_true_eq] at hq ⊢
        exact lt_of_lt_of_le hq (hlt.2.2.2.2.2.2.1 i)
      · exact decide_eq_true hpos
      · exact decide_eq_false (not_lt.mpr hzero)
    have hmono := liveSiteIdx_length_mono hlt.2.2.2.2.1 hlt.2.2.2.2.2.2.2
    unfold liveCount
    omega
  · have hstrict : (liveSiteIdx (allocPass st)).length < (liveSiteIdx st).length := by
      unfold liveSiteIdx
      rw [hlt.2.2.2.2.1]
      refine filter_length_strict _ _ _ ?_ i (List.mem_range.mpr hi) ?_ ?_
      · intro i2 _ hq
        rw [decide_eq_true_eq] at hq ⊢
        exact lt_of_lt_of_le hq (hlt.2.2.2.2.2.2.2 i2)
      · exact decide_eq_true hpos
      · exact decide_eq_false (not_lt.mpr hzero)
    have hmono := liveNodeIdx_length_mono hlt.2.2.2.1 hlt.2.2.2.2.2.2.1
    unfold liveCount
    omega

/-! ## Loop-level lemmas -/

theorem list_sum_zero_of_nonneg {l : List ℚ} (h : ∀ x ∈ l, 0 ≤ x)
    (hs : l.sum ≤ 0) : ∀ x ∈ l, x = 0 := by
  induction l with
  | nil => simp
  | cons a t ih =>
    have hta : ∀ x ∈ t, 0 ≤ x := fun x hx => h x (List.mem_cons_of_mem _ hx)
    have hts : 0 ≤ t.sum := List.sum_nonneg hta
    have ha : 0 ≤ a := h a (List.mem_cons_self _ _)
    rw [List.sum_cons] at hs
    intro x hx
    rcases List.mem_cons.mp hx with heq | hx
    · rw [heq]; linarith
    · exact ih hta (by linarith) x hx

theorem totS_zero_of_no_live {st : AState} (hS : SitesNonneg st)
    (hls : liveSiteIdx st = []) : totS st = 0 := by
  apply List.sum_eq_zero
  intro x hx
  rcases List.mem_map.mp hx with ⟨s, hs, hxv⟩
  rcases nth_of_mem hs with ⟨i, hi, hnth⟩
  have := liveSiteIdx_eq_nil.mp hls i hi
  rw [hnth] at this
  rw [← hxv]
  exact le_antisymm this (by rw [← hnth]; exact hS i)

theorem totN_nonneg {st : AState} (hN : NodesNonneg st) : 0 ≤ totN st := by
  apply List.sum_nonneg
  intro x hx
  rcases List.mem_map.mp hx with ⟨nd, hndm, hxv⟩
  rcases nth_of_mem hndm with ⟨j, hj, hnth⟩
  rw [← hxv, ← hnth]
  exact hN j

/-- When no live site remains but the remaining balance is nonnegative, no
live node can remain either. -/
theorem no_live_nodes_of_no_sites {st : AState} (hN : NodesNonneg st)
    (hS : SitesNonneg st) (hM : 0 ≤ totS st - totN st)
    (hls : liveSiteIdx st = []) : liveNodeIdx st = [] := by
  have h0 : totS st = 0 := totS_zero_of_no_live hS hls
  have hn0 : totN st ≤ 0 := by linarith
  apply liveNodeIdx_eq_nil.mpr
  intro j hj
  have hz : ∀ x ∈ st.nodes.map RNode.rCap, x = 0 := by
    apply list_sum_zero_of_nonneg _ hn0
    intro x hx
    rcases List.mem_map.mp hx with ⟨nd, hndm, hxv⟩
    rcases nth_of_mem hndm with ⟨i, hi, hnth⟩
    rw [← hxv, ← hnth]
    exact hN i
  have : (nth st.nodes j).rCap ∈ st.nodes.map RNode.rCap :=
    List.mem_map_of_mem _ (nth_mem _ _ hj)
  rw [hz _ this]

theorem liveCount_pos_of_nodes {st : AState} (h : liveNodeIdx st ≠ []) :
    1 ≤ liveCount st := by
  unfold liveCount
  have := List.length_pos.mpr h
  omega

/-- Core termination argument: given nonnegative remaining capacities and at
least as much fuel as live rows, the loop exits (normally or by the crash)
within the fuel bound. -/
theorem allocLoop_completes :
    ∀ (k : Nat) (st : AState), NodesNonneg st → SitesNonneg st → SitesRle st →
      1 ≤ k → liveCount st ≤ k → isFuelOut (allocLoop k st) = false := by
  intro k
  induction k with
  | zero => intro st _ _ _ h1 _; simp at h1
  | succ k ih =>
    intro st hN hS hR _ hcnt
    rw [allocLoop]
    by_cases hcr : liveSiteIdx st = [] ∧ liveNodeIdx st ≠ []
    · rw [if_pos hcr]; rfl
    · rw [if_neg hcr]
      simp only
      by_cases hok : liveNodeIdx (allocPass st) = []
      · rw [if_pos hok]; rfl
      · rw [if_neg hok]
        have hlnst : liveNodeIdx st ≠ [] := by
          intro h0
          apply hok
          rw [allocPass_of_no_nodes h0]
          exact h0
        have hlsst : liveSiteIdx st ≠ [] := by
          intro h0
          exact hcr ⟨h0, hlnst⟩
        have hlt := allocPass_light st hN hS hR
        have hdec := allocPass_liveCount_lt st hN hS hR hlnst hlsst
        have hpos := liveCount_pos_of_nodes hok
        exact ih (allocPass st) hlt.1 hlt.2.1 hlt.2.2.1 (by omega) (by omega)

/-- Core full-satisfaction argument: with a nonnegative remaining balance the
loop never crashes, and ends with every node's remaining capacity at zero and
conservation intact. -/
theorem allocLoop_ok_of_supply {sites0 : List RSite}
    (hnd : (sites0.map RSite.sid).Nodup) :
    ∀ (k : Nat) (st : AState), NodesNonneg st → SitesNonneg st → SitesRle st →
      SidCapEq sites0 st → ConsInv sites0 st → 0 ≤ totS st - totN st →
      1 ≤ k → liveCount st ≤ k →
      ∃ st', allocLoop k st = .ok st' ∧ ConsInv sites0 st' ∧
        NodesNonneg st' ∧ (∀ j, (nth st'.nodes j).rCap ≤ 0) := by
  intro k
  induction k with
  | zero => intro st _ _ _ _ _ _ h1 _; simp at h1
  | succ k ih =>
    intro st hN hS hR hsc hc hM _ hcnt
    rw [allocLoop]
    have hcr : ¬(liveSiteIdx st = [] ∧ liveNodeIdx st ≠ []) := by
      rintro ⟨hls, hln⟩
      exact hln (no_live_nodes_of_no_sites hN hS hM hls)
    rw [if_neg hcr]
    simp only
    have hlt := allocPass_light st hN hS hR
    have hfull := allocPass_full hnd st hN hS hR hsc hc
    by_cases hok : liveNodeIdx (allocPass st) = []
    · rw [if_pos hok]
      refine ⟨allocPass st, rfl, hfull.2, hlt.1, ?_⟩
      intro j
      by_cases hj : j < (allocPass st).nodes.length
      · exact liveNodeIdx_eq_nil.mp hok j hj
      · rw [nth_out _ _ (not_lt.mp hj)]
        exact le_of_eq (show (default : RNode).rCap = 0 from rfl)
    · rw [if_neg hok]
      have hlnst : liveNodeIdx st ≠ [] := by
        intro h0
        apply hok
        rw [allocPass_of_no_nodes h0]
        exact h0
      have hlsst : liveSiteIdx st ≠ [] := by
        intro h0
        exact hcr ⟨h0, hlnst⟩
      have hdec := allocPass_liveCount_lt st hN hS hR hlnst hlsst
      have hpos := liveCount_pos_of_nodes hok
      exact ih (allocPass st) hlt.1 hlt.2.1 hlt.2.2.1 hfull.1 hfull.2
        (by rw [hlt.2.2.2.2.2.1]; exact hM) (by omega) (by omega)

/-! ## Initial-state facts -/

theorem default_rnode_eq :
    (default : RNode) =
      { nid := 0, lat := 0, lon := 0, req := 0, rCap := 0, alloc := [] } := rfl

theorem initAState_nodes_length (a b : List (Nat × ℚ × ℚ × ℚ)) :
    (initAState a b).nodes.length = a.length := by
  simp [initAState]

theorem initAState_sites_length (a b : List (Nat × ℚ × ℚ × ℚ)) :
    (initAState a b).sites.length = b.length := by
  simp [initAState]

theorem initAState_invariants (a b : List (Nat × ℚ × ℚ × ℚ))
    (ha : ∀ x ∈ a, 0 ≤ x.2.2.2) (hb : ∀ x ∈ b, 0 ≤ x.2.2.2) :
    NodesNonneg (initAState a b) ∧ SitesNonneg (initAState a b) ∧
    SitesRle (initAState a b) ∧
    SidCapEq (initAState a b).sites (initAState a b) ∧
    ConsInv (initAState a b).sites (initAState a b) := by
  refine ⟨?_, ?_, ?_, ⟨rfl, fun i => ⟨rfl, rfl⟩⟩, ?_⟩
  · intro j
    by_cases hj : j < a.length
    · have : nth (initAState a b).nodes j = mkNode (nth a j) := by
        simp only [initAState]
        exact nth_map _ _ _ hj
      rw [this]
      exact ha (nth a j) (nth_mem a j hj)
    · rw [nth_out _ _ (by simpa [initAState] using not_lt.mp hj)]
      exact le_refl _
  · intro i
    by_cases hi : i < b.length
    · have : nth (initAState a b).sites i = mkSite (nth b i) := by
        simp only [initAState]
        exact nth_map _ _ _ hi
      rw [this]
      exact hb (nth b i) (nth_mem b i hi)
    · rw [nth_out _ _ (by simpa [initAState] using not_lt.mp hi)]
      exact le_refl _
  · intro i
    by_cases hi : i < b.length
    · have : nth (initAState a b).sites i = mkSite (nth b i) := by
        simp only [initAState]
        exact nth_map _ _ _ hi
      rw [this]
      exact le_refl _
    · rw [nth_out _ _ (by simpa [initAState] using not_lt.mp hi)]
      exact le_refl _
  · intro j
    by_cases hj : j < a.length
    · have : nth (initAState a b).nodes j = mkNode (nth a j) := by
        simp only [initAState]
        exact nth_map _ _ _ hj
      rw [this]
      simp [allocatedSum, mkNode]
    · rw [nth_out _ _ (by simpa [initAState] using not_lt.mp hj),
        default_rnode_eq]
      simp [allocatedSum]

theorem totS_init (a b : List (Nat × ℚ × ℚ × ℚ)) :
    totS (initAState a b) = (b.map (fun x => x.2.2.2)).sum := by
  simp only [totS, initAState, List.map_map]
  rfl

theorem totN_init (a b : List (Nat × ℚ × ℚ × ℚ)) :
    totN (initAState a b) = (a.map (fun x => x.2.2.2)).sum := by
  simp only [totN, initAState, List.map_map]
  rfl

theorem init_sid_nodup (a b : List (Nat × ℚ × ℚ × ℚ))
    (h : (b.map (fun x => x.1)).Nodup) :
    ((initAState a b).sites.map RSite.sid).Nodup := by
  have : (initAState a b).sites.map RSite.sid = b.map (fun x => x.1) := by
    simp only [initAState, List.map_map]
    rfl
  rw [this]
  exact h

theorem liveCount_le (st : AState) :
    liveCount st ≤ st.nodes.length + st.sites.length := by
  unfold liveCount liveNodeIdx liveSiteIdx
  have h1 := List.length_filter_le
    (fun i => decide (0 < (nth st.nodes i).rCap)) (List.range st.nodes.length)
  have h2 := List.length_filter_le
    (fun i => decide (0 < (nth st.sites i).rCap)) (List.range st.sites.length)
  simp only [List.length_range] at h1 h2
  omega

/-! ## Supporting lemmas for the contention claim -/

theorem filterMap_tag_fst_sublist (l : List Nat) (g : Nat → Option Nat) :
    ((l.filterMap (fun i => (g i).map (fun j => (i, j)))).map Prod.fst).Sublist l := by
  induction l with
  | nil => simp
  | cons a t ih =>
    rw [List.filterMap_cons]
    cases hga : g a with
    | none => simp only [hga, Option.map_none']; exact ih.cons a
    | some v =>
      simp only [hga, Option.map_some', List.map_cons]
      exact ih.cons₂ a

theorem passPairs_fst_nodup (st : AState) :
    ((passPairs st).map Prod.fst).Nodup := by
  have hsub := filterMap_tag_fst_sublist (liveSiteIdx st)
    (fun i => argminBy (fun j => sqDist (nth st.nodes j) (nth st.sites i))
      (choosers st i))
  have hnodup : (liveSiteIdx st).Nodup :=
    (List.nodup_range _).filter _
  exact hsub.nodup hnodup

theorem foldl_alloc_untouched :
    ∀ (ps : List (Nat × Nat)) (st : AState) (j : Nat),
      (∀ p ∈ ps, p.2 ≠ j) →
      (nth (ps.foldl applyPair st).nodes j).alloc = (nth st.nodes j).alloc := by
  intro ps
  induction ps with
  | nil => intro st j _; rfl
  | cons p ps ih =>
    intro st j h
    rw [List.foldl_cons]
    rw [ih (applyPair st p) j (fun q hq => h q (List.mem_cons_of_mem _ hq))]
    rw [applyPair_nth_nodes_ne st p j (h p (List.mem_cons_self _ _))]

/-! ## Claim theorems for the generation allocator -/

/-- Claim C1: the claim asserts that when total demand exceeds total site
capacity the loop terminates normally in a degraded-but-valid state.  The
code instead raises an uncaught exception: once every site is exhausted while
a node still has remaining capacity, the next iteration queries a cKDTree
over the empty live-site frame and indexes the empty r_index, which raises.
At the concrete failing input (one site of capacity 10 at the origin, one
node requiring 15 at the origin) the loop reaches the crash with the partial
allocation intact and conserved: the node keeps fraction 1.0 of site 0, the
allocated capacity equals 10, exactly the total rated site capacity. -/
theorem c1_overdemand_crash :
    nearest_power_nodes [(0, 0, 0, 15)] [(0, 0, 0, 10)] 2 =
      .crash { nodes := [{ nid := 0, lat := 0, lon := 0, req := 15, rCap := 5,
                           alloc := [(0, 1)] }],
               sites := [{ sid := 0, lat := 0, lon := 0, cap := 10, rCap := 0 }] } ∧
    nearest_power_nodes [(0, 0, 0, 15)] [(0, 0, 0, 10)] 100 =
      .crash { nodes := [{ nid := 0, lat := 0, lon := 0, req := 15, rCap := 5,
                           alloc := [(0, 1)] }],
               sites := [{ sid := 0, lat := 0, lon := 0, cap := 10, rCap := 0 }] } ∧
    allocatedSum (initAState [(0, 0, 0, 15)] [(0, 0, 0, 10)]).sites
      { nid := 0, lat := 0, lon := 0, req := 15, rCap := 5, alloc := [(0, 1)] } = 10 ∧
    totS (initAState [(0, 0, 0, 15)] [(0, 0, 0, 10)]) = 10 := by
  refine ⟨by with_unfolding_all decide, by with_unfolding_all decide, by with_unfolding_all decide, by with_unfolding_all decide⟩

/-- Claim C2: whenever total site capacity covers total node demand,
nearest_power_nodes terminates normally and fully satisfies every node: the
sum over its allocation list of fraction times the referenced site's rated
capacity equals the node's required capacity.  In particular, for sites
A = 0 with capacity 10 at the origin and B = 1 with capacity 10 at (1,1) and
one node requiring 15 at the origin, the allocation is
[(A, 1.0), (B, 0.5)] in that order. -/
theorem c2_full_satisfaction :
    (∀ (nodeData siteData : List (Nat × ℚ × ℚ × ℚ)),
      (∀ x ∈ nodeData, 0 ≤ x.2.2.2) →
      (∀ x ∈ siteData, 0 ≤ x.2.2.2) →
      (siteData.map (fun x => x.1)).Nodup →
      (nodeData.map (fun x => x.2.2.2)).sum ≤ (siteData.map (fun x => x.2.2.2)).sum →
      ∃ st', nearest_power_nodes nodeData siteData
          (max 1 (nodeData.length + siteData.length)) = .ok st' ∧
        ∀ j, allocatedSum (initAState nodeData siteData).sites (nth st'.nodes j) =
          (nth st'.nodes j).req) ∧
    nearest_power_nodes [(0, 0, 0, 15)] [(0, 0, 0, 10), (1, 1, 1, 10)] 3 =
      .ok { nodes := [{ nid := 0, lat := 0, lon := 0, req := 15, rCap := 0,
                        alloc := [(0, 1), (1, 1/2)] }],
            sites := [{ sid := 0, lat := 0, lon := 0, cap := 10, rCap := 0 },
                      { sid := 1, lat := 1, lon := 1, cap := 10, rCap := 5 }] } := by
  constructor
  · intro nodeData siteData ha hb hnodup hsupply
    have hinv := initAState_invariants nodeData siteData ha hb
    have hnd := init_sid_nodup nodeData siteData hnodup
    have hM : 0 ≤ totS (initAState nodeData siteData) -
        totN (initAState nodeData siteData) := by
      rw [totS_init, totN_init]
      linarith
    have hcnt : liveCount (initAState nodeData siteData) ≤
        max 1 (nodeData.length + siteData.length) := by
      have := liveCount_le (initAState nodeData siteData)
      rw [initAState_nodes_length, initAState_sites_length] at this
      exact le_trans this (le_max_right _ _)
    rcases allocLoop_ok_of_supply hnd (max 1 (nodeData.length + siteData.length))
      (initAState nodeData siteData) hinv.1 hinv.2.1 hinv.2.2.1 hinv.2.2.2.1
      hinv.2.2.2.2 hM (le_max_left _ _) hcnt with ⟨st', hok, hcons, hnn, hle⟩
    refine ⟨st', hok, ?_⟩
    intro j
    have hz : (nth st'.nodes j).rCap = 0 := le_antisymm (hle j) (hnn j)
    have := hcons j
    linarith
  · with_unfolding_all decide

/-- Witness for C2: the hypotheses hold at the two-site example and the
theorem yields a fully satisfying allocation for it. -/
theorem c2_full_satisfaction_witness :
    ((∀ x ∈ [((0 : Nat), (0 : ℚ), (0 : ℚ), (15 : ℚ))], 0 ≤ x.2.2.2) ∧
     (∀ x ∈ [((0 : Nat), (0 : ℚ), (0 : ℚ), (10 : ℚ)), (1, 1, 1, 10)], 0 ≤ x.2.2.2) ∧
     ([((0 : Nat), (0 : ℚ), (0 : ℚ), (10 : ℚ)), (1, 1, 1, 10)].map (fun x => x.1)).Nodup ∧
     ([((0 : Nat), (0 : ℚ), (0 : ℚ), (15 : ℚ))].map (fun x => x.2.2.2)).sum ≤
       ([((0 : Nat), (0 : ℚ), (0 : ℚ), (10 : ℚ)), (1, 1, 1, 10)].map (fun x => x.2.2.2)).sum) ∧
    ∃ st', nearest_power_nodes [(0, 0, 0, 15)] [(0, 0, 0, 10), (1, 1, 1, 10)]
        (max 1 ([((0 : Nat), (0 : ℚ), (0 : ℚ), (15 : ℚ))].length +
          [((0 : Nat), (0 : ℚ), (0 : ℚ), (10 : ℚ)), (1, 1, 1, 10)].length)) = .ok st' ∧
      ∀ j, allocatedSum
          (initAState [(0, 0, 0, 15)] [(0, 0, 0, 10), (1, 1, 1, 10)]).sites
          (nth st'.nodes j) = (nth st'.nodes j).req :=
  ⟨⟨by decide, by decide, by decide, by with_unfolding_all decide⟩,
    c2_full_satisfaction.1 [(0, 0, 0, 15)] [(0, 0, 0, 10), (1, 1, 1, 10)]
      (by decide) (by decide) (by decide) (by with_unfolding_all decide)⟩

/-- Claim C3: in every pass, candidate (node, site) pairs are grouped by
chosen site and only the closest chooser of each distinct site receives an
allocation from it in that iteration.  Formally: every winning pair's node
is a chooser of the site and minimises the distance among the site's
choosers; the winning pairs mention each site at most once; a node that is
not a winner has its allocation list untouched by the pass.  For the
concrete scenario of two nodes requiring 10 at (0,0) and (0.01,0.01) and the
single site 0 of capacity 10 at the origin, the first pass allocates the
full site to the strictly closer first node (fraction 1.0) and nothing to
the second. -/
theorem c3_contention :
    (∀ (st : AState) (p : Nat × Nat), p ∈ passPairs st →
      p.2 ∈ choosers st p.1 ∧
      ∀ j ∈ choosers st p.1,
        sqDist (nth st.nodes p.2) (nth st.sites p.1) ≤
          sqDist (nth st.nodes j) (nth st.sites p.1)) ∧
    (∀ st : AState, ((passPairs st).map Prod.fst).Nodup) ∧
    (∀ (st : AState) (j : Nat), (∀ p ∈ passPairs st, p.2 ≠ j) →
      (nth (allocPass st).nodes j).alloc = (nth st.nodes j).alloc) ∧
    (passPairs (initAState [(1, 0, 0, 10), (2, 1/100, 1/100, 10)]
        [(0, 0, 0, 10)]) = [(0, 0)] ∧
      allocPass (initAState [(1, 0, 0, 10), (2, 1/100, 1/100, 10)]
          [(0, 0, 0, 10)]) =
        { nodes := [{ nid := 1, lat := 0, lon := 0, req := 10, rCap := 0,
                      alloc := [(0, 1)] },
                    { nid := 2, lat := 1/100, lon := 1/100, req := 10,
                      rCap := 10, alloc := [] }],
          sites := [{ sid := 0, lat := 0, lon := 0, cap := 10, rCap := 0 }] }) := by
  refine ⟨?_, passPairs_fst_nodup, ?_, by with_unfolding_all decide,
    by with_unfolding_all decide⟩
  · intro st p hp
    have h := mem_passPairs hp
    exact ⟨h.2.1, h.2.2⟩
  · intro st j h
    exact foldl_alloc_untouched (passPairs st) st j h

/-- Witness for C3: the winning pair of the concrete contention scenario is
site 0 with node 0, and the theorem certifies that node 0 is the minimising
chooser. -/
theorem c3_contention_witness :
    ((0, 0) ∈ passPairs (initAState [(1, 0, 0, 10), (2, 1/100, 1/100, 10)]
      [(0, 0, 0, 10)])) ∧
    (0 ∈ choosers (initAState [(1, 0, 0, 10), (2, 1/100, 1/100, 10)]
        [(0, 0, 0, 10)]) 0 ∧
      ∀ j ∈ choosers (initAState [(1, 0, 0, 10), (2, 1/100, 1/100, 10)]
          [(0, 0, 0, 10)]) 0,
        sqDist (nth (initAState [(1, 0, 0, 10), (2, 1/100, 1/100, 10)]
            [(0, 0, 0, 10)]).nodes 0)
          (nth (initAState [(1, 0, 0, 10), (2, 1/100, 1/100, 10)]
            [(0, 0, 0, 10)]).sites 0) ≤
        sqDist (nth (initAState [(1, 0, 0, 10), (2, 1/100, 1/100, 10)]
            [(0, 0, 0, 10)]).nodes j)
          (nth (initAState [(1, 0, 0, 10), (2, 1/100, 1/100, 10)]
            [(0, 0, 0, 10)]).sites 0)) :=
  ⟨by with_unfolding_all decide,
    c3_contention.1 (initAState [(1, 0, 0, 10), (2, 1/100, 1/100, 10)]
      [(0, 0, 0, 10)]) (0, 0) (by with_unfolding_all decide)⟩

/-- Claim C8 counterexample: the claimed bound of exactly
(number of nodes + number of sites) loop iterations fails on the empty
input, where the bound is 0 but the while loop still executes one (no-op)
iteration before its break test fires. -/
theorem c8_bound_fails_on_empty :
    isFuelOut (nearest_power_nodes [] [] (0 + 0)) = true ∧
    nearest_power_nodes [] [] 1 = .ok { nodes := [], sites := [] } := by
  refine ⟨by with_unfolding_all decide, by with_unfolding_all decide⟩

/-- Claim C8 (amended): for nonnegative requested and rated capacities the
allocation loop finishes — normally, or in the over-demand crash state —
within max 1 (number of nodes + number of sites) iterations, because each
iteration that performs allocations drives at least one node's or one
site's remaining capacity to zero; only the empty input needs the extra
no-op iteration. -/
theorem c8_iteration_bound (nodeData siteData : List (Nat × ℚ × ℚ × ℚ))
    (ha : ∀ x ∈ nodeData, 0 ≤ x.2.2.2)
    (hb : ∀ x ∈ siteData, 0 ≤ x.2.2.2) :
    isFuelOut (nearest_power_nodes nodeData siteData
      (max 1 (nodeData.length + siteData.length))) = false := by
  have hinv := initAState_invariants nodeData siteData ha hb
  have hcnt : liveCount (initAState nodeData siteData) ≤
      max 1 (nodeData.length + siteData.length) := by
    have := liveCount_le (initAState nodeData siteData)
    rw [initAState_nodes_length, initAState_sites_length] at this
    exact le_trans this (le_max_right _ _)
  exact allocLoop_completes (max 1 (nodeData.length + siteData.length))
    (initAState nodeData siteData) hinv.1 hinv.2.1 hinv.2.2.1
    (le_max_left _ _) hcnt

/-- Witness for C8: at the over-demand input of claim C1 the loop finishes
(in the crash state) within the amended bound. -/
theorem c8_iteration_bound_witness :
    ((∀ x ∈ [((0 : Nat), (0 : ℚ), (0 : ℚ), (15 : ℚ))], 0 ≤ x.2.2.2) ∧
     (∀ x ∈ [((0 : Nat), (0 : ℚ), (0 : ℚ), (10 : ℚ))], 0 ≤ x.2.2.2)) ∧
    isFuelOut (nearest_power_nodes [(0, 0, 0, 15)] [(0, 0, 0, 10)]
      (max 1 ([((0 : Nat), (0 : ℚ), (0 : ℚ), (15 : ℚ))].length +
        [((0 : Nat), (0 : ℚ), (0 : ℚ), (10 : ℚ))].length))) = false :=
  ⟨⟨by decide, by decide⟩,
    c8_iteration_bound [(0, 0, 0, 15)] [(0, 0, 0, 10)] (by decide) (by decide)⟩

/-! ## Data model of the local cache and download orchestration
(R2PD/datastore.py and R2PD/queue.py)

A resource file is identified by the three components of its deterministic
name, as produced by download_resource_data and parsed back by cache_site
and refresh_cache_meta from the basename
dataset_resource_site.hdf5 via name.split. -/

structure RFile where
  dataset : String
  resource : String
  site : Nat
deriving DecidableEq, Repr, Inhabited

/-- The cache metadata CSV of one dataset: rows keyed by site_id, kept
sorted (sort_index), each row holding the set of resource-type columns that
are True. -/
abbrev Meta := List (Nat × List String)

/-- Set one resource column of a row to True. -/
def rowInsert (rs : List String) (res : String) : List String :=
  if res ∈ rs then rs else rs ++ [res]

/-- cache_meta.loc update: if the site is not yet a row, add an all-False
row first (sorted insertion, as the frame is re-sorted by sort_index on
every write); then set the resource column to True. -/
def metaInsert : Meta → Nat → String → Meta
  | [], site, res => [(site, [res])]
  | (s, rs) :: rest, site, res =>
    if site = s then (s, rowInsert rs res) :: rest
    else if site < s then (site, [res]) :: (s, rs) :: rest
    else (s, rs) :: metaInsert rest site res

/-- Read one presence flag out of a metadata frame. -/
def metaPresent (m : Meta) (site : Nat) (res : String) : Bool :=
  match m.find? (fun e => e.1 == site) with
  | some e => e.2.contains res
  | none => false

/-- The mutable on-disk state of the local cache: the two per-dataset
metadata CSVs and the set of .hdf5 data files on disk (download targets land
flat in the per-dataset root, which is what os.listdir of the root sees). -/
structure CacheState where
  windMeta : Meta
  solarMeta : Meta
  disk : List RFile
deriving DecidableEq, Repr, Inhabited

def metaOf (st : CacheState) (dataset : String) : Meta :=
  if dataset = "wind" then st.windMeta else st.solarMeta

/-- The body of InternalDataStore.cache_site for a valid dataset: parse the
basename into resource and site id and set the flag in that dataset's
metadata frame. -/
def cacheSiteCore (st : CacheState) (dataset : String) (f : RFile) : CacheState :=
  if dataset = "wind" then
    { st with windMeta := metaInsert st.windMeta f.site f.resource }
  else
    { st with solarMeta := metaInsert st.solarMeta f.site f.resource }

/-- InternalDataStore.cache_site: raises ValueError unless the dataset is
wind or solar, otherwise updates the metadata CSV. -/
def cache_site (st : CacheState) (dataset : String) (f : RFile) :
    Except Unit CacheState :=
  if dataset = "wind" ∨ dataset = "solar" then
    Except.ok (cacheSiteCore st dataset f)
  else Except.error ()

/-- InternalDataStore.refresh_cache_meta: re-scan the dataset root for .hdf5
files and OR each parsed (site, resource) into the metadata frame; entries
are only ever added, never removed. -/
def refreshMeta (st : CacheState) (dataset : String) : Meta :=
  (st.disk.filter (fun f => f.dataset == dataset)).foldl
    (fun m f => metaInsert m f.site f.resource) (metaOf st dataset)

/-- InternalDataStore.check_cache with an explicit resource_type: refresh
the dataset's metadata from disk, then read the presence flag.  (For an
invalid dataset the source raises inside refresh_cache_meta; the claims only
exercise wind and solar.) -/
def check_cache (st : CacheState) (dataset : String) (site : Nat)
    (res : String) : Bool :=
  metaPresent (refreshMeta st dataset) site res

/-- InternalDataStore.cache_size: total, wind and solar sizes of the .hdf5
files on disk, for an arbitrary size assignment sz (os.path.getsize). -/
def cacheSizeOf (sz : RFile → ℚ) (st : CacheState) : ℚ × ℚ × ℚ :=
  ((st.disk.map sz).sum,
   ((st.disk.filter (fun f => f.dataset == "wind")).map sz).sum,
   ((st.disk.filter (fun f => f.dataset == "solar")).map sz).sum)

/-- Errors of the download layer. -/
inductive DlError where
  | badDataset
  | capacity (d u m w s : ℚ)
  | typeErrorFormat
  | fetchFail (f : RFile)
deriving DecidableEq, Repr

/-- Result of one cache_resource call: the updated cache state, whether an
actual remote transfer succeeded, and the propagated exception if any. -/
structure CRRes where
  st : CacheState
  transferred : Bool
  err : Option DlError
deriving DecidableEq, Repr

/-- ExternalDataStore.cache_resource with the Peregrine downloader, driven
by a fetch oracle standing for the remote transfer outcome: validate the
dataset; skip the transfer when the destination file already exists
(os.path.isfile inside Peregrine.download); on a transfer error re-raise —
but the finally block registers the site in the cache metadata in every
case, including after a failed download. -/
def cache_resource (fetchOk : RFile → Bool) (st : CacheState)
    (dataset : String) (f : RFile) : CRRes :=
  if dataset = "wind" ∨ dataset = "solar" then
    if f ∈ st.disk then
      { st := cacheSiteCore st dataset f, transferred := false, err := none }
    else if fetchOk f then
      { st := cacheSiteCore { st with disk := st.disk ++ [f] } dataset f,
        transferred := true, err := none }
    else
      { st := cacheSiteCore st dataset f, transferred := false,
        err := some (.fetchFail f) }
  else { st := st, transferred := false, err := some .badDataset }

/-- Result of the serial download loop: final state, the files for which a
cache_resource call ran, the files actually transferred from the remote, and
the exception that ended the loop early, if any. -/
structure SerialRes where
  st : CacheState
  attempted : List RFile
  transferred : List RFile
  err : Option DlError
deriving DecidableEq, Repr

/-- The cores=None path of download_resource_data: run cache_resource on
each file in order; the first exception propagates and ends the loop. -/
def runSerial (fetchOk : RFile → Bool) (dataset : String) :
    CacheState → List RFile → SerialRes
  | st, [] => ⟨st, [], [], none⟩
  | st, f :: rest =>
    let r := cache_resource fetchOk st dataset f
    match r.err with
    | some e => ⟨r.st, [f], if r.transferred then [f] else [], some e⟩
    | none =>
      let k := runSerial fetchOk dataset r.st rest
      ⟨k.st, f :: k.attempted,
        (if r.transferred then [f] else []) ++ k.transferred, k.err⟩

/-- The average-file-size table WIND_FILE_SIZES (MB). -/
def WIND_FILE_SIZES (r : String) : ℚ :=
  if r = "met" then 14 else if r = "power" then 5 else if r = "fcst" then 2 else 0

/-- The average-file-size table SOLAR_FILE_SIZES (MB). -/
def SOLAR_FILE_SIZES (r : String) : ℚ :=
  if r = "met" then 10 else if r = "irradiance" then 20
  else if r = "power" then 1 else if r = "fcst" then 1 else 0

/-- The data_size computation of download_resource_data: number of sites
times the average file size for the dataset and resource type (plus
forecasts, plus solar irradiance for met), converted from MB to GB. -/
def estimateSize (dataset resource_type : String) (forecasts : Bool)
    (n : Nat) : ℚ :=
  (if dataset = "wind" then
    (if resource_type = "power" then
      (n : ℚ) * WIND_FILE_SIZES "power" +
        (if forecasts then (n : ℚ) * WIND_FILE_SIZES "fcst" else 0)
     else (n : ℚ) * WIND_FILE_SIZES "met")
   else
    (if resource_type = "power" then
      (n : ℚ) * SOLAR_FILE_SIZES "power" +
        (if forecasts then (n : ℚ) * SOLAR_FILE_SIZES "fcst" else 0)
     else (n : ℚ) * SOLAR_FILE_SIZES "met" +
       (n : ℚ) * SOLAR_FILE_SIZES "irradiance")) / 1000

/-- The files list built by download_resource_data: one main file per
requested site, plus the forecast file for power with forecasts, plus the
irradiance file for solar met.  No cache-presence filter is applied. -/
def buildFiles (site_ids : List Nat) (dataset resource_type : String)
    (forecasts : Bool) : List RFile :=
  (site_ids.map (fun s =>
    [RFile.mk dataset resource_type s] ++
    (if resource_type = "power" ∧ forecasts then [RFile.mk dataset "fcst" s]
     else []) ++
    (if dataset = "solar" ∧ resource_type = "met" then
      [RFile.mk "solar" "irradiance" s] else []))).flatten

/-- Common logic of queue.download_resource_data and
Peregrine.download_resource_data: validate the dataset, estimate the
download size, check the optional cache budget (raising capErrOf with the
computed sizes), then run the serial download loop over the built file
list.  The two versions differ only in the error their capacity branch
actually raises. -/
def download_resource_data_core (capErrOf : ℚ → ℚ × ℚ × ℚ → ℚ → DlError)
    (site_ids : List Nat) (dataset resource_type : String) (forecasts : Bool)
    (size_limit : Option ℚ) (sz : RFile → ℚ) (fetchOk : RFile → Bool)
    (st : CacheState) : SerialRes :=
  if dataset = "wind" ∨ dataset = "solar" then
    let data_size := estimateSize dataset resource_type forecasts site_ids.length
    match size_limit with
    | some m =>
      let sizes := cacheSizeOf sz st
      if m - sizes.1 < data_size then ⟨st, [], [], some (capErrOf data_size sizes m)⟩
      else runSerial fetchOk dataset st
        (buildFiles site_ids dataset resource_type forecasts)
    | none => runSerial fetchOk dataset st
        (buildFiles site_ids dataset resource_type forecasts)
  else ⟨st, [], [], some .badDataset⟩

/-- queue.download_resource_data (cores=None): its capacity branch raises a
RuntimeError whose message names the download size, the used total, the
maximum and the per-dataset sizes. -/
def download_resource_data (site_ids : List Nat)
    (dataset resource_type : String) (forecasts : Bool)
    (size_limit : Option ℚ) (sz : RFile → ℚ) (fetchOk : RFile → Bool)
    (st : CacheState) : SerialRes :=
  download_resource_data_core (fun d c m => .capacity d c.1 m c.2.1 c.2.2)
    site_ids dataset resource_type forecasts size_limit sz fetchOk st

/-- Peregrine.download_resource_data (cores=None): identical control flow,
but its capacity branch formats the InternalDataStore object itself with a
float format spec while building the message, so message construction
raises a TypeError before the RuntimeError naming the shortfall can be
raised. -/
def peregrine_download_resource_data (site_ids : List Nat)
    (dataset resource_type : String) (forecasts : Bool)
    (size_limit : Option ℚ) (sz : RFile → ℚ) (fetchOk : RFile → Bool)
    (st : CacheState) : SerialRes :=
  download_resource_data_core (fun _ _ _ => .typeErrorFormat)
    site_ids dataset resource_type forecasts size_limit sz fetchOk st

/-- DataStore.decode_config_entry: the guard is the Python expression
entry == 'None' or '', whose second disjunct is the always-falsy empty
string, so the test is equivalent to entry == 'None' alone. -/
def decode_config_entry (entry : String) : Option String :=
  if entry = "None" ∨ False then none else some entry

/-! ## Cache claim support lemmas -/

theorem rowInsert_idem (rs : List String) (res : String) :
    rowInsert (rowInsert rs res) res = rowInsert rs res := by
  by_cases h : res ∈ rs
  · simp [rowInsert, h]
  · simp [rowInsert, h]

theorem metaInsert_cons_eq (s : Nat) (rs : List String) (rest : Meta)
    (site : Nat) (res : String) (h : site = s) :
    metaInsert ((s, rs) :: rest) site res = (s, rowInsert rs res) :: rest := by
  simp [metaInsert, h]

theorem metaInsert_cons_lt (s : Nat) (rs : List String) (rest : Meta)
    (site : Nat) (res : String) (h1 : site ≠ s) (h2 : site < s) :
    metaInsert ((s, rs) :: rest) site res =
      (site, [res]) :: (s, rs) :: rest := by
  simp [metaInsert, h1, h2]

theorem metaInsert_cons_gt (s : Nat) (rs : List String) (rest : Meta)
    (site : Nat) (res : String) (h1 : site ≠ s) (h2 : ¬site < s) :
    metaInsert ((s, rs) :: rest) site res =
      (s, rs) :: metaInsert rest site res := by
  simp [metaInsert, h1, h2]

theorem metaInsert_idem : ∀ (m : Meta) (site : Nat) (res : String),
    metaInsert (metaInsert m site res) site res = metaInsert m site res := by
  intro m
  induction m with
  | nil =>
    intro site res
    simp [metaInsert, rowInsert]
  | cons head rest ih =>
    intro site res
    obtain ⟨s, rs⟩ := head
    by_cases h1 : site = s
    · subst h1
      rw [metaInsert_cons_eq _ _ _ _ _ rfl, metaInsert_cons_eq _ _ _ _ _ rfl,
        rowInsert_idem]
    · by_cases h2 : site < s
      · rw [metaInsert_cons_lt _ _ _ _ _ h1 h2,
          metaInsert_cons_eq _ _ _ _ _ rfl]
        simp [rowInsert]
      · rw [metaInsert_cons_gt _ _ _ _ _ h1 h2,
          metaInsert_cons_gt _ _ _ _ _ h1 h2, ih]

theorem cacheSiteCore_idem (st : CacheState) (ds : String) (f : RFile) :
    cacheSiteCore (cacheSiteCore st ds f) ds f = cacheSiteCore st ds f := by
  by_cases h : ds = "wind"
  · simp [cacheSiteCore, h, metaInsert_idem]
  · simp [cacheSiteCore, h, metaInsert_idem]

theorem cacheSiteCore_disk (st : CacheState) (ds : String) (f : RFile) :
    (cacheSiteCore st ds f).disk = st.disk := by
  unfold cacheSiteCore
  split <;> rfl

/-! ## Claim theorems for the cache and download layer -/

/-- Claim C9: cache_site is idempotent.  A successful registration, repeated
with identical arguments, succeeds again and returns the very same cache
state, so every check_cache query and the computed cache_size are unchanged
after the second call compared to after the first. -/
theorem c9_register_idempotent (st : CacheState) (ds : String) (f : RFile)
    (st1 : CacheState) (h : cache_site st ds f = Except.ok st1) :
    cache_site st1 ds f = Except.ok st1 := by
  unfold cache_site at h ⊢
  by_cases hds : ds = "wind" ∨ ds = "solar"
  · rw [if_pos hds] at h ⊢
    injection h with h1
    rw [← h1, cacheSiteCore_idem]
  · rw [if_neg hds] at h
    exact absurd h (by simp)

/-- Witness for C9: registering the wind power file of site 3 twice in an
empty cache. -/
theorem c9_register_idempotent_witness :
    cache_site { windMeta := [], solarMeta := [], disk := [] } "wind"
        { dataset := "wind", resource := "power", site := 3 } =
      Except.ok { windMeta := [(3, ["power"])], solarMeta := [], disk := [] } ∧
    cache_site { windMeta := [(3, ["power"])], solarMeta := [], disk := [] }
        "wind" { dataset := "wind", resource := "power", site := 3 } =
      Except.ok { windMeta := [(3, ["power"])], solarMeta := [], disk := [] } :=
  ⟨by with_unfolding_all rfl,
    c9_register_idempotent { windMeta := [], solarMeta := [], disk := [] }
      "wind" { dataset := "wind", resource := "power", site := 3 }
      { windMeta := [(3, ["power"])], solarMeta := [], disk := [] }
      (by with_unfolding_all rfl)⟩

/-- Claim C10: decode_config_entry returns None exactly for the literal
string None; every other entry, including the empty string, is returned
unchanged, because the or-clause of the guard is the always-falsy empty
string literal. -/
theorem c10_decode_config_entry :
    (∀ entry : String, decode_config_entry entry = none ↔ entry = "None") ∧
    decode_config_entry "" = some "" ∧
    decode_config_entry "None" = none := by
  refine ⟨?_, by decide, by decide⟩
  intro entry
  unfold decode_config_entry
  by_cases h : entry = "None"
  · simp [h]
  · simp [h]

/-- Claim C5: the claim asserts that a cache entry is flipped to present
only after the corresponding download succeeded, so check_cache stays false
for a site whose fetch raised.  The code's try/finally registers the site
in the cache metadata even when the download raised: at the concrete
failing input (empty cache, wind power file of site 7, fetch oracle that
fails) cache_resource propagates the fetch error, yet check_cache reports
the site present afterwards. -/
theorem c5_failed_fetch_registered :
    (cache_resource (fun _ => false)
        { windMeta := [], solarMeta := [], disk := [] } "wind"
        { dataset := "wind", resource := "power", site := 7 }).err =
      some (.fetchFail { dataset := "wind", resource := "power", site := 7 }) ∧
    check_cache (cache_resource (fun _ => false)
        { windMeta := [], solarMeta := [], disk := [] } "wind"
        { dataset := "wind", resource := "power", site := 7 }).st
      "wind" 7 "power" = true :=
  ⟨by decide, by decide⟩

/-- Claim C4: when a maximum cache size is configured and the recomputed
used size plus the estimated download size exceeds it, both versions of
download_resource_data fail before any fetch: zero cache_resource calls,
zero transfers, cache state unchanged.  The queue.py version raises the
RuntimeError naming the shortfall; the datastore.py (Peregrine) version
raises a TypeError while formatting the message (it applies the float
format spec to the InternalDataStore object), so its error does not name
the shortfall. -/
theorem c4_budget_failfast (site_ids : List Nat)
    (dataset resource_type : String) (forecasts : Bool) (m : ℚ)
    (sz : RFile → ℚ) (fetchOk : RFile → Bool) (st : CacheState)
    (hds : dataset = "wind" ∨ dataset = "solar")
    (hover : m < (cacheSizeOf sz st).1 +
      estimateSize dataset resource_type forecasts site_ids.length) :
    download_resource_data site_ids dataset resource_type forecasts
        (some m) sz fetchOk st =
      { st := st, attempted := [], transferred := [],
        err := some (.capacity
          (estimateSize dataset resource_type forecasts site_ids.length)
          (cacheSizeOf sz st).1 m
          (cacheSizeOf sz st).2.1 (cacheSizeOf sz st).2.2) } ∧
    peregrine_download_resource_data site_ids dataset resource_type forecasts
        (some m) sz fetchOk st =
      { st := st, attempted := [], transferred := [],
        err := some .typeErrorFormat } := by
  have hcond : m - (cacheSizeOf sz st).1 <
      estimateSize dataset resource_type forecasts site_ids.length := by
    linarith
  constructor
  · simp [download_resource_data, download_resource_data_core, hds, hcond]
  · simp [peregrine_download_resource_data, download_resource_data_core,
      hds, hcond]

/-- Witness for C4: one wind power site against an empty cache with a zero
byte budget. -/
theorem c4_budget_failfast_witness :
    (("wind" : String) = "wind" ∨ ("wind" : String) = "solar") ∧
    ((0 : ℚ) < (cacheSizeOf (fun _ => 1)
        { windMeta := [], solarMeta := [], disk := [] }).1 +
      estimateSize "wind" "power" false [(0 : Nat)].length) ∧
    download_resource_data [0] "wind" "power" false (some 0) (fun _ => 1)
        (fun _ => true) { windMeta := [], solarMeta := [], disk := [] } =
      { st := { windMeta := [], solarMeta := [], disk := [] },
        attempted := [], transferred := [],
        err := some (.capacity
          (estimateSize "wind" "power" false [(0 : Nat)].length)
          (cacheSizeOf (fun _ => 1)
            { windMeta := [], solarMeta := [], disk := [] }).1 0
          (cacheSizeOf (fun _ => 1)
            { windMeta := [], solarMeta := [], disk := [] }).2.1
          (cacheSizeOf (fun _ => 1)
            { windMeta := [], solarMeta := [], disk := [] }).2.2) } :=
  ⟨Or.inl rfl, by with_unfolding_all decide,
    (c4_budget_failfast [0] "wind" "power" false 0 (fun _ => 1)
      (fun _ => true) { windMeta := [], solarMeta := [], disk := [] }
      (Or.inl rfl) (by with_unfolding_all decide)).1⟩

theorem cache_resource_mem (fetchOk : RFile → Bool) (st : CacheState)
    (ds : String) (f : RFile) (hds : ds = "wind" ∨ ds = "solar")
    (hmem : f ∈ st.disk) :
    cache_resource fetchOk st ds f =
      { st := cacheSiteCore st ds f, transferred := false, err := none } := by
  unfold cache_resource
  rw [if_pos hds, if_pos hmem]

theorem cache_resource_fetch (fetchOk : RFile → Bool) (st : CacheState)
    (ds : String) (f : RFile) (hds : ds = "wind" ∨ ds = "solar")
    (hmem : f ∉ st.disk) (hok : fetchOk f = true) :
    cache_resource fetchOk st ds f =
      { st := cacheSiteCore { st with disk := st.disk ++ [f] } ds f,
        transferred := true, err := none } := by
  unfold cache_resource
  rw [if_pos hds, if_neg hmem, if_pos hok]

theorem cache_resource_fail (fetchOk : RFile → Bool) (st : CacheState)
    (ds : String) (f : RFile) (hds : ds = "wind" ∨ ds = "solar")
    (hmem : f ∉ st.disk) (hok : fetchOk f = false) :
    cache_resource fetchOk st ds f =
      { st := cacheSiteCore st ds f, transferred := false,
        err := some (.fetchFail f) } := by
  unfold cache_resource
  rw [if_pos hds, if_neg hmem, if_neg (by simp [hok])]

theorem runSerial_cons (fetchOk : RFile → Bool) (ds : String)
    (st : CacheState) (f : RFile) (rest : List RFile) :
    runSerial fetchOk ds st (f :: rest) =
      (match (cache_resource fetchOk st ds f).err with
      | some e =>
        ⟨(cache_resource fetchOk st ds f).st, [f],
          if (cache_resource fetchOk st ds f).transferred then [f] else [],
          some e⟩
      | none =>
        ⟨(runSerial fetchOk ds (cache_resource fetchOk st ds f).st rest).st,
          f :: (runSerial fetchOk ds (cache_resource fetchOk st ds f).st rest).attempted,
          (if (cache_resource fetchOk st ds f).transferred then [f] else []) ++
            (runSerial fetchOk ds (cache_resource fetchOk st ds f).st rest).transferred,
          (runSerial fetchOk ds (cache_resource fetchOk st ds f).st rest).err⟩ :
        SerialRes) := rfl

/-- When every fetch succeeds and the file list has no duplicates, the
serial loop attempts every file in order, transfers exactly the files not
already on disk, and reports no error. -/
theorem runSerial_all_ok (fetchOk : RFile → Bool) (ds : String)
    (hds : ds = "wind" ∨ ds = "solar") (hok : ∀ f, fetchOk f = true) :
    ∀ (files : List RFile) (st : CacheState), files.Nodup →
      (runSerial fetchOk ds st files).attempted = files ∧
      (runSerial fetchOk ds st files).transferred =
        files.filter (fun f => decide (f ∉ st.disk)) ∧
      (runSerial fetchOk ds st files).err = none := by
  intro files
  induction files with
  | nil => intro st _; exact ⟨rfl, rfl, rfl⟩
  | cons f rest ih =>
    intro st hnd
    have hndr : rest.Nodup := (List.nodup_cons.mp hnd).2
    have hfr : f ∉ rest := (List.nodup_cons.mp hnd).1
    rw [runSerial_cons]
    by_cases hmem : f ∈ st.disk
    · rw [cache_resource_mem fetchOk st ds f hds hmem]
      simp only
      have hdisk : (cacheSiteCore st ds f).disk = st.disk := cacheSiteCore_disk st ds f
      have IH := ih (cacheSiteCore st ds f) hndr
      rw [hdisk] at IH
      refine ⟨by rw [IH.1], ?_, IH.2.2⟩
      rw [IH.2.1]
      simp [List.filter_cons, hmem]
    · rw [cache_resource_fetch fetchOk st ds f hds hmem (hok f)]
      simp only
      have hdisk : (cacheSiteCore { st with disk := st.disk ++ [f] } ds f).disk =
          st.disk ++ [f] := cacheSiteCore_disk _ ds f
      have IH := ih (cacheSiteCore { st with disk := st.disk ++ [f] } ds f) hndr
      rw [hdisk] at IH
      refine ⟨by rw [IH.1], ?_, IH.2.2⟩
      rw [IH.2.1]
      have hfilter : rest.filter (fun g => decide (g ∉ st.disk ++ [f])) =
          rest.filter (fun g => decide (g ∉ st.disk)) := by
        apply List.filter_congr
        intro g hg
        have hgf : g ≠ f := fun hcontra => hfr (hcontra ▸ hg)
        simp [List.mem_append, hgf]
      rw [hfilter]
      simp [List.filter_cons, hmem]

/-- In serial mode the first failing fetch ends the loop: files before it
are attempted (and succeed), the failing file is attempted and its error
propagates, and no later file is attempted. -/
theorem runSerial_aborts (fetchOk : RFile → Bool) (ds : String)
    (hds : ds = "wind" ∨ ds = "solar") :
    ∀ (good : List RFile) (st : CacheState) (f : RFile) (rest : List RFile),
      (∀ g ∈ good, g ∈ st.disk ∨ fetchOk g = true) →
      fetchOk f = false → f ∉ st.disk → f ∉ good →
      (runSerial fetchOk ds st (good ++ f :: rest)).err =
        some (.fetchFail f) ∧
      (runSerial fetchOk ds st (good ++ f :: rest)).attempted = good ++ [f] := by
  intro good
  induction good with
  | nil =>
    intro st f rest _ hf1 hf2 _
    rw [List.nil_append, runSerial_cons,
      cache_resource_fail fetchOk st ds f hds hf2 hf1]
    exact ⟨rfl, rfl⟩
  | cons g good ih =>
    intro st f rest hgood hf1 hf2 hf3
    have hg := hgood g (List.mem_cons_self _ _)
    have hf3g : f ≠ g := by
      intro hcontra
      exact hf3 (hcontra ▸ List.mem_cons_self _ _)
    have hf3r : f ∉ good := fun hcontra => hf3 (List.mem_cons_of_mem _ hcontra)
    have hgoodr : ∀ g2 ∈ good, g2 ∈ st.disk ∨ fetchOk g2 = true :=
      fun g2 hg2 => hgood g2 (List.mem_cons_of_mem _ hg2)
    rw [List.cons_append, runSerial_cons]
    by_cases hmem : g ∈ st.disk
    · rw [cache_resource_mem fetchOk st ds g hds hmem]
      simp only
      have hdisk : (cacheSiteCore st ds g).disk = st.disk := cacheSiteCore_disk st ds g
      have IH := ih (cacheSiteCore st ds g) f rest
        (by rw [hdisk]; exact hgoodr) hf1 (by rw [hdisk]; exact hf2) hf3r
      exact ⟨IH.1, by simp [IH.2]⟩
    · have hgok : fetchOk g = true := by
        rcases hg with h | h
        · exact absurd h hmem
        · exact h
      rw [cache_resource_fetch fetchOk st ds g hds hmem hgok]
      simp only
      have hdisk : (cacheSiteCore { st with disk := st.disk ++ [g] } ds g).disk =
          st.disk ++ [g] := cacheSiteCore_disk _ ds g
      have hf2' : f ∉ st.disk ++ [g] := by
        simp [List.mem_append, hf2, hf3g]
      have IH := ih (cacheSiteCore { st with disk := st.disk ++ [g] } ds g) f rest
        (by
          rw [hdisk]
          intro g2 hg2
          rcases hgoodr g2 hg2 with h | h
          · exact Or.inl (List.mem_append_left _ h)
          · exact Or.inr h)
        hf1 (by rw [hdisk]; exact hf2') hf3r
      exact ⟨IH.1, by simp [IH.2]⟩

/-- Claim C6 counterexample: the claim says download_resource_data first
filters the requested sites by cache presence, so present sites neither
contribute to the size estimate nor get fetch tasks.  With wind power site 0
already present (registered and on disk), the call still dispatches a
cache_resource task for it, and with a tight budget the call still fails the
capacity check even though nothing is missing. -/
theorem c6_presence_filter_cex :
    check_cache (CacheState.mk [(0, ["power"])] [] [RFile.mk "wind" "power" 0])
      "wind" 0 "power" = true ∧
    (peregrine_download_resource_data [0] "wind" "power" false none
      (fun _ => 1) (fun _ => true)
      (CacheState.mk [(0, ["power"])] [] [RFile.mk "wind" "power" 0])).attempted =
      [RFile.mk "wind" "power" 0] ∧
    (peregrine_download_resource_data [0] "wind" "power" false (some 1)
      (fun _ => 1) (fun _ => true)
      (CacheState.mk [(0, ["power"])] [] [RFile.mk "wind" "power" 0])).err =
      some .typeErrorFormat :=
  ⟨by decide, by with_unfolding_all decide, by with_unfolding_all decide⟩

/-- Claim C6 (amended): download_resource_data applies no cache-presence
filter.  Every requested file gets a cache_resource task and the size
estimate counts every requested site; only the os.path.isfile check inside
download prevents re-transfer of files already on disk, and those files are
still re-registered.  Formally, with all fetches succeeding and no duplicate
requested files: the attempted list is exactly the built file list,
independent of the cache metadata, and the transferred list is exactly the
files not already on disk. -/
theorem c6_no_presence_filter (site_ids : List Nat)
    (dataset resource_type : String) (forecasts : Bool) (sz : RFile → ℚ)
    (fetchOk : RFile → Bool) (st : CacheState)
    (hds : dataset = "wind" ∨ dataset = "solar")
    (hok : ∀ f, fetchOk f = true)
    (hnd : (buildFiles site_ids dataset resource_type forecasts).Nodup) :
    (peregrine_download_resource_data site_ids dataset resource_type forecasts
      none sz fetchOk st).attempted =
        buildFiles site_ids dataset resource_type forecasts ∧
    (peregrine_download_resource_data site_ids dataset resource_type forecasts
      none sz fetchOk st).transferred =
        (buildFiles site_ids dataset resource_type forecasts).filter
          (fun f => decide (f ∉ st.disk)) ∧
    (peregrine_download_resource_data site_ids dataset resource_type forecasts
      none sz fetchOk st).err = none := by
  simp only [peregrine_download_resource_data, download_resource_data_core,
    if_pos hds]
  exact runSerial_all_ok fetchOk dataset hds hok
    (buildFiles site_ids dataset resource_type forecasts) st hnd

/-- Witness for C6: two wind power sites, site 0 already on disk; both get
tasks, only site 1 is transferred. -/
theorem c6_no_presence_filter_witness :
    ((("wind" : String) = "wind" ∨ ("wind" : String) = "solar") ∧
     (∀ f : RFile, (fun _ => true) f = true) ∧
     (buildFiles [0, 1] "wind" "power" false).Nodup) ∧
    ((peregrine_download_resource_data [0, 1] "wind" "power" false none
      (fun _ => 1) (fun _ => true)
      (CacheState.mk [(0, ["power"])] [] [RFile.mk "wind" "power" 0])).attempted =
        buildFiles [0, 1] "wind" "power" false ∧
     (peregrine_download_resource_data [0, 1] "wind" "power" false none
      (fun _ => 1) (fun _ => true)
      (CacheState.mk [(0, ["power"])] [] [RFile.mk "wind" "power" 0])).transferred =
        (buildFiles [0, 1] "wind" "power" false).filter
          (fun f => decide (f ∉
            (CacheState.mk [(0, ["power"])] [] [RFile.mk "wind" "power" 0]).disk)) ∧
     (peregrine_download_resource_data [0, 1] "wind" "power" false none
      (fun _ => 1) (fun _ => true)
      (CacheState.mk [(0, ["power"])] [] [RFile.mk "wind" "power" 0])).err =
        none) :=
  ⟨⟨Or.inl rfl, fun _ => rfl, by decide⟩,
    c6_no_presence_filter [0, 1] "wind" "power" false (fun _ => 1)
      (fun _ => true)
      (CacheState.mk [(0, ["power"])] [] [RFile.mk "wind" "power" 0])
      (Or.inl rfl) (fun _ => rfl) (by decide)⟩

/-- Claim C7 counterexample: the claim says a failed fetch is isolated to
its site, sibling fetches still run and register, and the errors are
collected and returned alongside the result.  In the serial (cores=None)
path, the first failure propagates immediately: requesting wind power for
sites 1 and 2 with site 1's fetch failing, the call ends with site 1's
exception, site 2 is never attempted and is absent from the cache
afterwards — while failed site 1 is registered by the finally block. -/
theorem c7_failure_aborts_siblings_cex :
    (peregrine_download_resource_data [1, 2] "wind" "power" false none
      (fun _ => 1) (fun f => decide (f.site ≠ 1))
      (CacheState.mk [] [] [])).err =
      some (.fetchFail (RFile.mk "wind" "power" 1)) ∧
    (peregrine_download_resource_data [1, 2] "wind" "power" false none
      (fun _ => 1) (fun f => decide (f.site ≠ 1))
      (CacheState.mk [] [] [])).attempted = [RFile.mk "wind" "power" 1] ∧
    check_cache (peregrine_download_resource_data [1, 2] "wind" "power" false
      none (fun _ => 1) (fun f => decide (f.site ≠ 1))
      (CacheState.mk [] [] [])).st "wind" 2 "power" = false ∧
    check_cache (peregrine_download_resource_data [1, 2] "wind" "power" false
      none (fun _ => 1) (fun f => decide (f.site ≠ 1))
      (CacheState.mk [] [] [])).st "wind" 1 "power" = true :=
  ⟨by with_unfolding_all decide, by with_unfolding_all decide,
   by with_unfolding_all decide, by with_unfolding_all decide⟩

/-- Claim C7 (amended): in the serial cores=None path of
download_resource_data, the first failing fetch aborts the loop and
propagates as the call's exception: the files before it are attempted, the
failing file is attempted (and still registered by the finally block), and
no later file is attempted.  No per-site error aggregation exists; in the
parallel path the same tasks are submitted to an executor whose futures —
and hence their exceptions — are never examined. -/
theorem c7_serial_abort (site_ids : List Nat)
    (dataset resource_type : String) (forecasts : Bool) (sz : RFile → ℚ)
    (fetchOk : RFile → Bool) (st : CacheState)
    (good : List RFile) (f : RFile) (rest : List RFile)
    (hds : dataset = "wind" ∨ dataset = "solar")
    (hsplit : buildFiles site_ids dataset resource_type forecasts =
      good ++ f :: rest)
    (hgood : ∀ g ∈ good, g ∈ st.disk ∨ fetchOk g = true)
    (hf1 : fetchOk f = false) (hf2 : f ∉ st.disk) (hf3 : f ∉ good) :
    (peregrine_download_resource_data site_ids dataset resource_type forecasts
      none sz fetchOk st).err = some (.fetchFail f) ∧
    (peregrine_download_resource_data site_ids dataset resource_type forecasts
      none sz fetchOk st).attempted = good ++ [f] := by
  simp only [peregrine_download_resource_data, download_resource_data_core,
    if_pos hds]
  rw [hsplit]
  exact runSerial_aborts fetchOk dataset hds good st f rest hgood hf1 hf2 hf3

/-- Witness for C7: three wind power sites where only site 0's fetch can
succeed; the failure at site 1 ends the call after attempting sites 0
and 1. -/
theorem c7_serial_abort_witness :
    ((("wind" : String) = "wind" ∨ ("wind" : String) = "solar") ∧
     buildFiles [0, 1, 2] "wind" "power" false =
       [RFile.mk "wind" "power" 0] ++
         RFile.mk "wind" "power" 1 :: [RFile.mk "wind" "power" 2] ∧
     (fun g : RFile => decide (g.site = 0)) (RFile.mk "wind" "power" 1) =
       false) ∧
    ((peregrine_download_resource_data [0, 1, 2] "wind" "power" false none
      (fun _ => 1) (fun g => decide (g.site = 0))
      (CacheState.mk [] [] [])).err =
        some (.fetchFail (RFile.mk "wind" "power" 1)) ∧
     (peregrine_download_resource_data [0, 1, 2] "wind" "power" false none
      (fun _ => 1) (fun g => decide (g.site = 0))
      (CacheState.mk [] [] [])).attempted =
        [RFile.mk "wind" "power" 0] ++ [RFile.mk "wind" "power" 1]) :=
  ⟨⟨Or.inl rfl, by decide, by decide⟩,
    c7_serial_abort [0, 1, 2] "wind" "power" false (fun _ => 1)
      (fun g => decide (g.site = 0)) (CacheState.mk [] [] [])
      [RFile.mk "wind" "power" 0] (RFile.mk "wind" "power" 1)
      [RFile.mk "wind" "power" 2]
      (Or.inl rfl) (by decide) (by decide) (by decide) (by decide) (by decide)⟩
